import Mathlib

/-!
# fluent-bit-go: the decoder (`output/decoder.go`)

A shallow embedding of `GetRecord`, of the timestamp extension `FLBTime`, of
the enumerations, of `CMetrics.String` and of `ConvertRecordToCMetrics`.

* Go `interface{}` values produced by the msgpack decoder are the inductive
  type `Value`; each constructor is one dynamic Go type. With the handle of
  `NewDecoder` a msgpack string decodes to a `[]byte`, which is `Value.bytes`.
* `reflect.ValueOf(m).Kind()`, `.Len()` and `.Index(i)` are the functions
  `reflectKind`, `reflectLen`, `reflectIndex`; the reflect calls that panic in
  Go return `none`.
* A Go function that may panic returns `Except String α`: `.error msg` is a
  panic with message `msg`, `.ok a` is a normal return of `a`.
* A `float64` is its IEEE-754 bit pattern; `formatFloat0` is the verb `%.0f`.
* The loops of `CMetrics.String` over a `strings.Builder` are recursive
  functions that pass the text written so far.
* `mapstructure.WeakDecode` is a library call; its account in the
  specification is the definition `WeakDecode`.
-/

namespace FluentBit

/-! ## Data model -/

/-- Go `time.Time` as far as this package observes it: Unix seconds and the
nanosecond offset inside the second. -/
structure Time where
  sec : Int
  nsec : Int
  deriving DecidableEq, Repr

/-- Go `type FLBTime struct { time.Time }`. -/
structure FLBTime where
  time : Time
  deriving DecidableEq, Repr

/-- The dynamic Go types a decoded `interface{}` can hold. `goInt` is Go `int`
(the untyped constant `0` that `GetRecord` returns in its `ts` slot), `bytes`
is `[]byte`, `slice` is `[]interface{}`, `map` is
`map[interface{}]interface{}` (its entries, as an association list), `rawExt`
is an extension value of a tag no Go type is registered for. A float is kept as
its 64-bit pattern: `GetRecord` never looks inside it. -/
inductive Value where
  | nil
  | bool (b : Bool)
  | goInt (i : Int)
  | int64 (i : Int)
  | uint8 (n : Nat)
  | uint64 (n : Nat)
  | float64 (bits : Nat)
  | string (s : String)
  | bytes (b : List Nat)
  | flbTime (t : FLBTime)
  | rawExt (tag : Nat) (data : List Nat)
  | slice (xs : List Value)
  | map (kvs : List (Value × Value))

/-- Go `map[interface{}]interface{}`: the record type of `GetRecord`. -/
abbrev Record := List (Value × Value)

/-- The kinds of `reflect.Kind` that the values above can have. -/
inductive Kind where
  | Invalid
  | Bool
  | Int
  | Int64
  | Uint8
  | Uint64
  | Float64
  | String
  | Slice
  | Map
  | Struct
  deriving DecidableEq, Repr

/-- Go `reflect.ValueOf(v).Kind()`. The nil interface gives the zero
`reflect.Value`, whose kind is `Invalid`. -/
def reflectKind : Value → Kind
  | .nil => .Invalid
  | .bool _ => .Bool
  | .goInt _ => .Int
  | .int64 _ => .Int64
  | .uint8 _ => .Uint8
  | .uint64 _ => .Uint64
  | .float64 _ => .Float64
  | .string _ => .String
  | .bytes _ => .Slice
  | .flbTime _ => .Struct
  | .rawExt _ _ => .Struct
  | .slice _ => .Slice
  | .map _ => .Map

/-- Go `reflect.ValueOf(v).Len()`: defined for maps, slices and strings (of the
kinds above); it panics on every other kind, which is `none`. -/
def reflectLen : Value → Option Nat
  | .string s => some s.utf8ByteSize
  | .bytes b => some b.length
  | .slice xs => some xs.length
  | .map kvs => some kvs.length
  | _ => none

/-- Go `reflect.ValueOf(v).Index(i).Interface()`: the `i`-th element of a slice
(a `uint8` for `[]byte`); it panics (`none`) out of range. `GetRecord` calls it
on values of kind `Slice` only. -/
def reflectIndex : Value → Nat → Option Value
  | .slice xs, i => xs.get? i
  | .bytes b, i => (b.get? i).map Value.uint8
  | _, _ => none

/-- The result triple of `GetRecord`: `(ret, ts, rec)`; `rec = none` is the nil
map. -/
abbrev GetRecordResult := Int × Value × Option Record

/-- The `0` that `GetRecord` returns in its `ts` slot (an `int` in an
`interface{}`). -/
def zeroTs : Value := .goInt 0

/-- Lines 203-218 of `GetRecord`: the type switch on the first element `ts`
of the top-level slice. `.ok (.inr t)` carries on with the resolved timestamp
`t`; `.ok (.inl r)` is an early `return r`. -/
def resolveTimestamp (ts : Value) : Except String (GetRecordResult ⊕ Value) :=
  match ts with
  | .flbTime ty => .ok (.inr (.flbTime ty))
  | .uint64 ty => .ok (.inr (.uint64 ty))
  | .slice ty =>
    match reflectLen (.slice ty) with
    | none => .error "reflect: call of reflect.Value.Len on a value without length"
    | some n =>
      if reflectKind (.slice ty) ≠ Kind.Slice ∨ n < 2 then
        .ok (.inl (-4, zeroTs, none))
      else
        match reflectIndex (.slice ty) 0 with
        | none => .error "reflect: slice index out of range"
        | some t => .ok (.inr t)
  | _ => .ok (.inl (-5, zeroTs, none))

/-- Go `GetRecord`, on the outcome of `dec.mpdec.Decode(&m)`: `.error _` is
`check != nil`, `.ok m` is the decoded top-level value. -/
def GetRecord (decoded : Except String Value) : Except String GetRecordResult :=
  match decoded with
  | .error _ => .ok (-1, zeroTs, none)
  | .ok m =>
    match reflectLen m with
    | none => .error "reflect: call of reflect.Value.Len on a value without length"
    | some n =>
      if n ≠ 2 then
        .ok (-2, zeroTs, none)
      else
        match reflectKind m with
        | .Map =>
          match m with
          | .map map_data => .ok (0, zeroTs, some map_data)
          | _ => .error "interface conversion: the value is not a map"
        | .Slice =>
          match reflectIndex m 0 with
          | none => .error "reflect: slice index out of range"
          | some ts =>
            match resolveTimestamp ts with
            | .error e => .error e
            | .ok (.inl r) => .ok r
            | .ok (.inr t) =>
              match reflectIndex m 1 with
              | none => .error "reflect: slice index out of range"
              | some data =>
                match data with
                | .map map_data => .ok (0, t, some map_data)
                | _ => .ok (-3, zeroTs, none)
        | _ => .ok (-2, zeroTs, none)

/-- The status codes `GetRecord` can return. -/
def statusCodes : List Int := [0, -1, -2, -3, -4, -5]

/-- Go `binary.BigEndian.Uint32(b)`: the first four bytes of `b`, most
significant first; it panics (`none`) when `b` has fewer than four bytes. -/
def bigEndianUint32 : List Nat → Option Nat
  | b0 :: b1 :: b2 :: b3 :: _ =>
    some ((b0 % 256) * 2 ^ 24 + (b1 % 256) * 2 ^ 16 + (b2 % 256) * 2 ^ 8 + b3 % 256)
  | _ => none

/-- Go `time.Unix(sec, nsec)`: `nsec` outside `[0, 1e9)` is carried into the
seconds (`n := nsec / 1e9` truncates toward zero, then a negative remainder is
fixed up by one more second). -/
def timeUnix (sec nsec : Int) : Time :=
  if nsec < 0 ∨ nsec ≥ 1000000000 then
    let n := Int.tdiv nsec 1000000000
    let sec1 := sec + n
    let nsec1 := nsec - n * 1000000000
    if nsec1 < 0 then
      { sec := sec1 - 1, nsec := nsec1 + 1000000000 }
    else
      { sec := sec1, nsec := nsec1 }
  else
    { sec := sec, nsec := nsec }

/-- An `interface{}` argument of the extension methods: a `*FLBTime` (the nil
pointer is `none`, a pointer to a variable holding `t` is `some t`), or any
other dynamic value, the nil interface included. -/
inductive ExtArg where
  | flbTimePtr (target : Option FLBTime)
  | value (v : Value)

/-- Go `FLBTime{}`: the zero time, 1 January of year 1, as Unix seconds. -/
def zeroFLBTime : FLBTime := { time := { sec := -62135596800, nsec := 0 } }

/-- Go `func (f FLBTime) ReadExt(i interface{}, b []byte)`; the result is the
`FLBTime` that the call leaves in `*out`. The steps, in the order of lines
47-50: the unchecked assertion `out := i.(*FLBTime)` panics unless `i` holds a
`*FLBTime`; `binary.BigEndian.Uint32(b)` and `binary.BigEndian.Uint32(b[4:])`
panic when `b` has fewer than 4, respectively 8, bytes; the assignment
`out.Time = ...` panics on the nil pointer. -/
def FLBTime.ReadExt (_f : FLBTime) (i : ExtArg) (b : List Nat) : Except String FLBTime :=
  match i with
  | .value _ => .error "interface conversion: the value is not a *FLBTime"
  | .flbTimePtr out =>
    match bigEndianUint32 b with
    | none => .error "runtime error: index out of range"
    | some sec =>
      match bigEndianUint32 (b.drop 4) with
      | none => .error "runtime error: index out of range"
      | some usec =>
        match out with
        | none => .error "runtime error: invalid memory address or nil pointer dereference"
        | some _ => .ok { time := timeUnix (Int.ofNat sec) (Int.ofNat usec) }

/-- Go `func (f FLBTime) WriteExt(interface{}) []byte`: it panics with
`unsupported`. -/
def FLBTime.WriteExt (_f : FLBTime) (_v : ExtArg) : Except String (List Nat) :=
  .error "unsupported"

/-- Go `func (f FLBTime) ConvertExt(v interface{}) interface{}`: it returns
`nil`. -/
def FLBTime.ConvertExt (_f : FLBTime) (_v : ExtArg) : Except String Value :=
  .ok .nil

/-- Go `func (f FLBTime) UpdateExt(dest interface{}, v interface{})`: it
panics with `unsupported`. -/
def FLBTime.UpdateExt (_f : FLBTime) (_dest _v : ExtArg) : Except String Unit :=
  .error "unsupported"

/-- The big-endian four bytes of an unsigned 32-bit number, the encoding that
`binary.BigEndian.Uint32` reads back. -/
def bigEndian32 (n : Nat) : List Nat :=
  [n / 2 ^ 24 % 256, n / 2 ^ 16 % 256, n / 2 ^ 8 % 256, n % 256]

/-- Go `t.Unix()`: the seconds component of a time. -/
def Time.Unix (t : Time) : Int := t.sec

/-- Go `t.Nanosecond()`: the nanosecond offset inside the second. -/
def Time.Nanosecond (t : Time) : Int := t.nsec

/-- The microseconds component of a time: the whole microseconds of its
nanosecond offset (`t.Nanosecond() / 1000`). -/
def Time.Microsecond (t : Time) : Int := t.nsec / 1000

/-- The success condition of `GetRecord` in words: a mapping with exactly two
entries, or a two-element sequence whose first element is an `FLBTime`, a
`uint64` or a sequence of length at least 2 and whose second element is a
mapping. -/
def specAccepts (m : Value) : Prop :=
  (∃ kvs, m = .map kvs ∧ kvs.length = 2) ∨
    ∃ t p, m = .slice [t, .map p] ∧
      ((∃ ft, t = .flbTime ft) ∨ (∃ n, t = .uint64 n) ∨ ∃ w, t = .slice w ∧ 2 ≤ w.length)

/-- The status of a mapping, sequence or string in the order of the checks:
length and shape first (`-2`), then the kind of the timestamp (`-5`, or `-4`
for a short timestamp sequence), then the payload (`-3`), else `0`. A decoded
string is a `[]byte` here: with two bytes it passes the check of length and
shape as a two-element sequence, and its first element, a byte, is no
timestamp (`-5`). A Go `string` has no elements and fails the shape check. -/
def specStatus (m : Value) : Int :=
  match m with
  | .map kvs => if kvs.length = 2 then 0 else -2
  | .slice [t, p] =>
    match t with
    | .flbTime _ =>
      match p with
      | .map _ => 0
      | _ => -3
    | .uint64 _ =>
      match p with
      | .map _ => 0
      | _ => -3
    | .slice w =>
      if w.length < 2 then -4
      else
        match p with
        | .map _ => 0
        | _ => -3
    | _ => -5
  | .bytes b => if b.length = 2 then -5 else -2
  | _ => -2

/-! ## Enumerations -/

/-- Go `type AggregationType int64`. -/
abbrev AggregationType := Int

/-- Go `UNSPECIFIED AggregationType = 0`. -/
def UNSPECIFIED : AggregationType := 0

/-- Go `DELTA AggregationType = 1`. -/
def DELTA : AggregationType := 1

/-- Go `CUMMULATIVE AggregationType = 2`. -/
def CUMMULATIVE : AggregationType := 2

/-- Go `func (at AggregationType) String() string`. -/
def AggregationType.String (t : AggregationType) : String :=
  if t = UNSPECIFIED then "unspecified"
  else if t = DELTA then "delta"
  else if t = CUMMULATIVE then "cumulative"
  else ""

/-- Go `type MetricType int64`. -/
abbrev MetricType := Int

/-- Go `COUNTER MetricType = 0`. -/
def COUNTER : MetricType := 0

/-- Go `GAUGE MetricType = 1`. -/
def GAUGE : MetricType := 1

/-- Go `HISTOGRAM MetricType = 2`. -/
def HISTOGRAM : MetricType := 2

/-- Go `SUMMARY MetricType = 3`. -/
def SUMMARY : MetricType := 3

/-- Go `UNTYPED MetricType = 4`. -/
def UNTYPED : MetricType := 4

/-- Go `func (mt MetricType) String() string`. -/
def MetricType.String (mt : MetricType) : String :=
  if mt = COUNTER then "counter"
  else if mt = GAUGE then "gauge"
  else if mt = HISTOGRAM then "histogram"
  else if mt = SUMMARY then "summary"
  else if mt = UNTYPED then "untyped"
  else ""

/-! ## The metrics document -/

/-- The struct `Opts` of a series (`desc`, `name`, `ns`, `ss`). -/
structure MetricOpts where
  Desc : String
  Name : String
  Namespace : String
  Subsystem : String

/-- The struct `Meta` of a series. `Type_` is the Go field `Type`. -/
structure MetricMeta where
  AggregationType : AggregationType
  Labels : List String
  Opts : MetricOpts
  Type_ : MetricType
  Ver : Int

/-- One element of `Values`. `Value` is a `float64`, kept as its IEEE-754 bit
pattern. -/
structure Sample where
  Hash : Int
  Labels : List String
  Ts : Int
  Value : Nat

/-- One element of `Metrics`. -/
structure Metric where
  Meta : MetricMeta
  Values : List Sample

/-- The document-level `Meta` struct: two `map[string]interface{}` and
`Processing.StaticLabels`. -/
structure CMetricsMeta where
  Cmetrics : List (String × Value)
  External : List (String × Value)
  StaticLabels : List Value

/-- Go `type CMetrics struct`. -/
structure CMetrics where
  Meta : CMetricsMeta
  Metrics : List Metric

/-! ## Formatting a `float64` with `%.0f` -/

/-- The sign bit of a double. -/
def float64Sign (bits : Nat) : Bool := bits / 2 ^ 63 % 2 = 1

/-- The 11-bit biased exponent field of a double. -/
def float64Exp (bits : Nat) : Nat := bits / 2 ^ 52 % 2048

/-- The 52-bit fraction field of a double. -/
def float64Frac (bits : Nat) : Nat := bits % 2 ^ 52

/-- The integer nearest to `m / 2 ^ k`, a tie going to the even neighbour. -/
def roundHalfEven (m k : Nat) : Nat :=
  let q := m / 2 ^ k
  let r := m % 2 ^ k
  if 2 * r > 2 ^ k ∨ (2 * r = 2 ^ k ∧ q % 2 = 1) then q + 1 else q

/-- The significand `m` and the exponent field `e` (at least 1) of a finite
double: its absolute value is `m * 2 ^ e / 2 ^ 1075`. -/
def float64Parts (bits : Nat) : Nat × Nat :=
  if float64Exp bits = 0 then (float64Frac bits, 1)
  else (float64Frac bits + 2 ^ 52, float64Exp bits)

/-- The absolute value of a finite double rounded to an integer, as `%.0f`
does it: exact when the double is an integer, else to the nearest integer with
a tie going to even. -/
def float64RoundAbs (bits : Nat) : Nat :=
  let (m, e) := float64Parts bits
  if 1075 ≤ e then m * 2 ^ (e - 1075) else roundHalfEven m (1075 - e)

/-- The text before the digits: `-` when the sign bit is set. -/
def signText (bits : Nat) : String := if float64Sign bits then "-" else ""

/-- Go `fmt.Sprintf("%.0f", v)` (that is `strconv.FormatFloat(v, 'f', 0, 64)`)
on the double with bit pattern `bits`: the exact value rounded to an integer in
decimal, `NaN`, `+Inf` or `-Inf` for the values that are no numbers. -/
def formatFloat0 (bits : Nat) : String :=
  if float64Exp bits = 2047 then
    if float64Frac bits ≠ 0 then "NaN"
    else if float64Sign bits then "-Inf" else "+Inf"
  else
    signText bits ++ toString (float64RoundAbs bits)

/-- The absolute value of a finite double, as a rational number. -/
def float64Abs (bits : Nat) : ℚ :=
  ((float64Parts bits).1 : ℚ) * 2 ^ (float64Parts bits).2 / 2 ^ 1075

/-- The exact value of a finite double, as a signed rational number. -/
def float64Value (bits : Nat) : ℚ :=
  if float64Sign bits then -float64Abs bits else float64Abs bits

/-! ## `CMetrics.String` -/

/-- Line 145: `fmt.Sprintf("%s_%s_%s", Namespace, Subsystem, Name)`. -/
def fullMetricName (metric : Metric) : String :=
  metric.Meta.Opts.Namespace ++ "_" ++ metric.Meta.Opts.Subsystem ++ "_" ++ metric.Meta.Opts.Name

/-- Lines 151-156: the loop over `metric.Meta.Labels`, at index `i`, with
`names` the label names still to visit and `ret` the builder. The index
expression `value.Labels[i]` panics when `i` is out of range. -/
def writeLabels (metaLabels valueLabels : List String) :
    Nat → List String → String → Except String String
  | _, [], ret => .ok ret
  | i, labelName :: names, ret =>
    match valueLabels.get? i with
    | none => .error "runtime error: index out of range"
    | some labelValue =>
      let ret1 := ret ++ (labelName ++ "=" ++ labelValue)
      let ret2 := if (i : Int) < (metaLabels.length : Int) - 1 then ret1 ++ "," else ret1
      writeLabels metaLabels valueLabels (i + 1) names ret2

/-- Lines 149-158: the loop over `metric.Values`. -/
def writeValues (metric : Metric) : List Sample → String → Except String String
  | [], ret => .ok ret
  | value :: values, ret =>
    match writeLabels metric.Meta.Labels value.Labels 0 metric.Meta.Labels
        (ret ++ (fullMetricName metric ++ "\x7b")) with
    | .error e => .error e
    | .ok ret1 =>
      writeValues metric values (ret1 ++ ("\x7d " ++ formatFloat0 value.Value ++ "\n"))

/-- Lines 144-159: the loop over `cm.Metrics`. -/
def writeMetrics : List Metric → String → Except String String
  | [], ret => .ok ret
  | metric :: metrics, ret =>
    let ret1 := ret ++
      ("# HELP " ++ fullMetricName metric ++ " " ++ metric.Meta.Opts.Desc ++ "\n")
    let ret2 := ret1 ++
      ("# TYPE " ++ fullMetricName metric ++ " " ++ MetricType.String metric.Meta.Type_ ++ "\n")
    match writeValues metric metric.Values ret2 with
    | .error e => .error e
    | .ok ret3 => writeMetrics metrics ret3

/-- Go `func (cm CMetrics) String() string`; `.error` is a panic. -/
def CMetrics.String (cm : CMetrics) : Except String String :=
  writeMetrics cm.Metrics ""

/-! ## The exposition format, as the specification words it -/

/-- Every sample has at least as many label values as its series has label
names. -/
def labelsCover (metrics : List Metric) : Prop :=
  ∀ metric ∈ metrics, ∀ value ∈ metric.Values,
    metric.Meta.Labels.length ≤ value.Labels.length

/-- Every sample has exactly as many label values as its series has label
names. -/
def labelsAligned (metrics : List Metric) : Prop :=
  ∀ metric ∈ metrics, ∀ value ∈ metric.Values,
    value.Labels.length = metric.Meta.Labels.length

/-- The strings of a list, one after the other. -/
def concatAll : List String → String
  | [] => ""
  | x :: xs => x ++ concatAll xs

/-- The strings of a list joined by `,`: no comma after the last one. -/
def joinComma : List String → String
  | [] => ""
  | [x] => x
  | x :: y :: rest => x ++ "," ++ joinComma (y :: rest)

/-- The pairs `labelName=labelValue`, names and values matched by position. -/
def specLabelPairs (names values : List String) : List String :=
  List.zipWith (fun labelName labelValue => labelName ++ "=" ++ labelValue) names values

/-- The line of one sample: `fullName{pairs} value` and a newline. -/
def specSampleLine (metric : Metric) (value : Sample) : String :=
  fullMetricName metric ++ "\x7b" ++ joinComma (specLabelPairs metric.Meta.Labels value.Labels)
    ++ "\x7d " ++ formatFloat0 value.Value ++ "\n"

/-- The block of one series: the HELP line, the TYPE line, then one line for
each sample in order. -/
def specSeriesBlock (metric : Metric) : String :=
  "# HELP " ++ fullMetricName metric ++ " " ++ metric.Meta.Opts.Desc ++ "\n"
    ++ ("# TYPE " ++ fullMetricName metric ++ " " ++ MetricType.String metric.Meta.Type_ ++ "\n")
    ++ concatAll (metric.Values.map (specSampleLine metric))

/-- The rendering of a document as the specification describes it: the blocks
of its series in document order. -/
def specRender (metrics : List Metric) : String :=
  concatAll (metrics.map specSeriesBlock)

/-! ## `ConvertRecordToCMetrics` -/

/-- The zero value of the struct `Opts`. -/
def zeroMetricOpts : MetricOpts := { Desc := "", Name := "", Namespace := "", Subsystem := "" }

/-- The zero value of the struct `Meta` of a series. -/
def zeroMetricMeta : MetricMeta :=
  { AggregationType := 0, Labels := [], Opts := zeroMetricOpts, Type_ := 0, Ver := 0 }

/-- The zero value of a sample (the value `+0.0` has the bit pattern 0). -/
def zeroSample : Sample := { Hash := 0, Labels := [], Ts := 0, Value := 0 }

/-- The zero value of a series. -/
def zeroMetric : Metric := { Meta := zeroMetricMeta, Values := [] }

/-- The zero value of the document-level `Meta`. -/
def zeroCMetricsMeta : CMetricsMeta := { Cmetrics := [], External := [], StaticLabels := [] }

/-- Go `var result CMetrics`: the zero document. -/
def zeroCMetrics : CMetrics := { Meta := zeroCMetricsMeta, Metrics := [] }

/-- The coercions of the permissive mapping, which the specification leaves
open (`coerced where feasible`): each says which generic values become a value
of the target type; `none` is a value that is dropped. -/
structure Coercion where
  toInt : Value → Option Int
  toFloat : Value → Option Nat
  toStr : Value → Option String
  toList : Value → Option (List Value)
  toMap : Value → Option Record

/-- A string with its upper-case ASCII letters made lower-case. -/
def lowerCase (s : String) : String := String.mk (s.data.map Char.toLower)

/-- Modelled from the spec: the field lookup of `mapstructure.WeakDecode`
(the library is not part of the sources), `field names are matched
case-tolerantly`: the value of the first entry whose key is a string equal to
`name` up to letter case. -/
def lookupField (name : String) : Record → Option Value
  | [] => none
  | (.string k, v) :: rest => if lowerCase k = name then some v else lookupField name rest
  | _ :: rest => lookupField name rest

/-- Modelled from the spec: one field of `mapstructure.WeakDecode`: `missing
fields take zero-values`, a present value is `coerced where feasible` and
`otherwise silently dropped`. `prior` is the value the field has before the
call. -/
def decodeField {α : Type} (name : String) (coerce : Value → Option α) (prior : α)
    (m : Record) : α :=
  match lookupField name m with
  | none => prior
  | some v => (coerce v).getD prior

/-- Modelled from the spec: a sequence of strings, an element that is no
string taking the zero value. -/
def decodeStrings (c : Coercion) (v : Value) : Option (List String) :=
  (c.toList v).map (fun xs => xs.map (fun x => (c.toStr x).getD ""))

/-- Modelled from the spec: a `map[string]interface{}`, the entries whose key
is no string being dropped. -/
def decodeStringMap (c : Coercion) (v : Value) : Option (List (String × Value)) :=
  (c.toMap v).map (fun kvs => kvs.filterMap (fun kv => (c.toStr kv.1).map (fun k => (k, kv.2))))

/-- Modelled from the spec: the struct `Opts` from a generic mapping. -/
def decodeMetricOpts (c : Coercion) (prior : MetricOpts) (m : Record) : MetricOpts :=
  { Desc := decodeField "desc" c.toStr prior.Desc m
    Name := decodeField "name" c.toStr prior.Name m
    Namespace := decodeField "ns" c.toStr prior.Namespace m
    Subsystem := decodeField "ss" c.toStr prior.Subsystem m }

/-- Modelled from the spec: the struct `Meta` of a series from a generic
mapping. -/
def decodeMetricMeta (c : Coercion) (prior : MetricMeta) (m : Record) : MetricMeta :=
  { AggregationType := decodeField "aggregation_type" c.toInt prior.AggregationType m
    Labels := decodeField "labels" (decodeStrings c) prior.Labels m
    Opts := decodeField "opts" (fun v => (c.toMap v).map (decodeMetricOpts c prior.Opts))
      prior.Opts m
    Type_ := decodeField "type" c.toInt prior.Type_ m
    Ver := decodeField "ver" c.toInt prior.Ver m }

/-- Modelled from the spec: one sample from a generic mapping. -/
def decodeSample (c : Coercion) (m : Record) : Sample :=
  { Hash := decodeField "hash" c.toInt 0 m
    Labels := decodeField "labels" (decodeStrings c) [] m
    Ts := decodeField "ts" c.toInt 0 m
    Value := decodeField "value" c.toFloat 0 m }

/-- Modelled from the spec: one series from a generic mapping. -/
def decodeMetric (c : Coercion) (m : Record) : Metric :=
  { Meta := decodeField "meta" (fun v => (c.toMap v).map (decodeMetricMeta c zeroMetricMeta))
      zeroMetricMeta m
    Values := decodeField "values"
      (fun v => (c.toList v).map
        (fun xs => xs.map (fun x => ((c.toMap x).map (decodeSample c)).getD zeroSample)))
      [] m }

/-- Modelled from the spec: the document-level `Meta` from a generic
mapping. -/
def decodeCMetricsMeta (c : Coercion) (prior : CMetricsMeta) (m : Record) : CMetricsMeta :=
  { Cmetrics := decodeField "cmetrics" (decodeStringMap c) prior.Cmetrics m
    External := decodeField "external" (decodeStringMap c) prior.External m
    StaticLabels := decodeField "processing"
      (fun v => (c.toMap v).map (decodeField "static_labels" c.toList prior.StaticLabels))
      prior.StaticLabels m }

/-- Modelled from the spec: `mapstructure.WeakDecode(record, &result)`, a
library call whose code is not part of the sources. The specification calls it
a permissive structural mapping from the generic nested mapping into the typed
document that never fails. The result is the document left in `result`;
`.error` would be a panic of the call. The `error` value the library returns
is discarded by its only caller and has no place here. -/
def WeakDecode (c : Coercion) (record : Record) (result : CMetrics) : Except String CMetrics :=
  .ok
    { Meta := decodeField "meta" (fun v => (c.toMap v).map (decodeCMetricsMeta c result.Meta))
        result.Meta record
      Metrics := decodeField "metrics"
        (fun v => (c.toList v).map
          (fun xs => xs.map (fun x => ((c.toMap x).map (decodeMetric c)).getD zeroMetric)))
        result.Metrics record }

/-- Go `ConvertRecordToCMetrics`: `var result CMetrics`, the call of
`WeakDecode` on `&result`, `return result`; `.error` is a panic. -/
def ConvertRecordToCMetrics (c : Coercion) (record : Record) : Except String CMetrics :=
  match WeakDecode c record zeroCMetrics with
  | .error e => .error e
  | .ok result => .ok result

/-- The coercion that takes integers as integers, a float as a float, strings
and byte strings as strings, and sequences and mappings as they are. -/
def plainCoercion : Coercion :=
  { toInt := fun v =>
      match v with
      | .int64 i => some i
      | .uint64 n => some (Int.ofNat n)
      | _ => none
    toFloat := fun v =>
      match v with
      | .float64 bits => some bits
      | _ => none
    toStr := fun v =>
      match v with
      | .string s => some s
      | .bytes b => some (String.mk (b.map Char.ofNat))
      | _ => none
    toList := fun v =>
      match v with
      | .slice xs => some xs
      | _ => none
    toMap := fun v =>
      match v with
      | .map kvs => some kvs
      | _ => none }

/-! ## What the claim says of a converted document -/

/-- The entries of a value read as a mapping; a value that is no mapping has
none. -/
def entriesOf (c : Coercion) (v : Value) : Record := (c.toMap v).getD []

/-- The entries of the mapping under the field `name` of the input `m`: none
when the field is absent or no mapping. -/
def fieldEntries (c : Coercion) (name : String) (m : Record) : Record :=
  match lookupField name m with
  | none => []
  | some v => entriesOf c v

/-- The elements of the sequence under the field `name` of the input `m`: none
when the field is absent or no sequence. -/
def fieldElements (c : Coercion) (name : String) (m : Record) : List Value :=
  match lookupField name m with
  | none => []
  | some v => (c.toList v).getD []

/-- A sample has the zero value in every field the input mapping lacks. -/
def SampleZeroWhereAbsent (input : Record) (s : Sample) : Prop :=
  (lookupField "hash" input = none → s.Hash = 0) ∧
    (lookupField "labels" input = none → s.Labels = []) ∧
    (lookupField "ts" input = none → s.Ts = 0) ∧
    (lookupField "value" input = none → s.Value = 0)

/-- The `opts` of a series have the zero value in every field the input
mapping lacks. -/
def OptsZeroWhereAbsent (input : Record) (o : MetricOpts) : Prop :=
  (lookupField "desc" input = none → o.Desc = "") ∧
    (lookupField "name" input = none → o.Name = "") ∧
    (lookupField "ns" input = none → o.Namespace = "") ∧
    (lookupField "ss" input = none → o.Subsystem = "")

/-- The `meta` of a series has the zero value in every field the input mapping
lacks, the fields of `opts` included. -/
def MetaZeroWhereAbsent (c : Coercion) (input : Record) (mm : MetricMeta) : Prop :=
  (lookupField "aggregation_type" input = none → mm.AggregationType = 0) ∧
    (lookupField "labels" input = none → mm.Labels = []) ∧
    (lookupField "type" input = none → mm.Type_ = 0) ∧
    (lookupField "ver" input = none → mm.Ver = 0) ∧
    (lookupField "opts" input = none → mm.Opts = zeroMetricOpts) ∧
    OptsZeroWhereAbsent (fieldEntries c "opts" input) mm.Opts

/-- A series has the zero value in every field the input mapping lacks: its
`meta` field by field, and its samples, of which there are as many as the
input has under `values`, each field by field. -/
def SeriesZeroWhereAbsent (c : Coercion) (input : Record) (d : Metric) : Prop :=
  (lookupField "meta" input = none → d.Meta = zeroMetricMeta) ∧
    MetaZeroWhereAbsent c (fieldEntries c "meta" input) d.Meta ∧
    (lookupField "values" input = none → d.Values = []) ∧
    d.Values.length = (fieldElements c "values" input).length ∧
    ∀ j y s, (fieldElements c "values" input).get? j = some y → d.Values.get? j = some s →
      SampleZeroWhereAbsent (entriesOf c y) s

/-- The document-level `meta` has the zero value in every field the input
mapping lacks. -/
def DocMetaZeroWhereAbsent (c : Coercion) (input : Record) (dm : CMetricsMeta) : Prop :=
  (lookupField "cmetrics" input = none → dm.Cmetrics = []) ∧
    (lookupField "external" input = none → dm.External = []) ∧
    (lookupField "processing" input = none → dm.StaticLabels = []) ∧
    (lookupField "static_labels" (fieldEntries c "processing" input) = none →
      dm.StaticLabels = [])

/-- A document has the zero value in every field the input record lacks, at
every level: the document `meta`, and the series, of which there are as many as
the record has under `metrics`, each as `SeriesZeroWhereAbsent` says. -/
def DocumentZeroWhereAbsent (c : Coercion) (record : Record) (doc : CMetrics) : Prop :=
  (lookupField "meta" record = none → doc.Meta = zeroCMetricsMeta) ∧
    DocMetaZeroWhereAbsent c (fieldEntries c "meta" record) doc.Meta ∧
    (lookupField "metrics" record = none → doc.Metrics = []) ∧
    doc.Metrics.length = (fieldElements c "metrics" record).length ∧
    ∀ i x d, (fieldElements c "metrics" record).get? i = some x → doc.Metrics.get? i = some d →
      SeriesZeroWhereAbsent c (entriesOf c x) d

/-! ## Example values -/

/-- The mapping `{"a": 1}`. -/
def recA : Record := [(.string "a", .int64 1)]

/-- The 8-byte extension payload of seconds 1700000000, microseconds 500000. -/
def extPayload : List Nat := [0x65, 0x53, 0xF1, 0x00, 0x00, 0x07, 0xA1, 0x20]

/-- The `FLBTime` that `ReadExt` builds from `extPayload`. -/
def extTime : FLBTime := { time := { sec := 1700000000, nsec := 500000 } }

/-- The counter series `ns_ss_myname` with label `region`, description `d` and
the one sample `region = us` of value 42.4. -/
def seriesMyname : Metric :=
  { Meta := { AggregationType := 0, Labels := ["region"],
              Opts := { Desc := "d", Name := "myname", Namespace := "ns", Subsystem := "ss" },
              Type_ := 0, Ver := 2 },
    Values := [{ Hash := 0, Labels := ["us"], Ts := 0, Value := 0x4045333333333333 }] }

/-- The series `seriesMyname` with a sample that carries no label value. -/
def seriesShort : Metric :=
  { seriesMyname with Values := [{ Hash := 0, Labels := [], Ts := 0, Value := 0 }] }

/-- The series `seriesMyname` with the undefined type code 9. -/
def seriesUnknownType : Metric :=
  { seriesMyname with Meta := { seriesMyname.Meta with Type_ := 9 } }

/-- The document-level metadata with nothing in it. -/
def emptyMeta : CMetricsMeta := { Cmetrics := [], External := [], StaticLabels := [] }

/-- The bit pattern of the double 42.4. -/
def bits42_4 : Nat := 0x4045333333333333

/-- The bit pattern of the double 42.6. -/
def bits42_6 : Nat := 0x40454CCCCCCCCCCD

/-- The bit pattern of the double -42.6. -/
def bitsNeg42_6 : Nat := 0xC0454CCCCCCCCCCD

/-- The bit pattern of a quiet NaN. -/
def bitsNaN : Nat := 0x7FF8000000000000

/-- The series `seriesMyname` with the sample value NaN. -/
def seriesNaN : Metric :=
  { seriesMyname with Values := [{ Hash := 0, Labels := ["us"], Ts := 0, Value := bitsNaN }] }

/-- The series `seriesMyname` with the sample value 42.6. -/
def seriesRoundsUp : Metric :=
  { seriesMyname with Values := [{ Hash := 0, Labels := ["us"], Ts := 0, Value := bits42_6 }] }

/-- A metrics record with one series that has a name and one sample, and
nothing else: no document `meta`, no labels, no type. -/
def recordSparse : Record :=
  [(.string "metrics", .slice [.map
    [(.string "meta", .map [(.string "opts", .map [(.string "name", .bytes [117, 112])])]),
     (.string "values", .slice [.map [(.string "value", .float64 0x4045333333333333)]])]])]

/-- A metrics record whose `metrics` field is a string, not a sequence, and
whose `meta` field is an integer, not a mapping. -/
def recordWrongTypes : Record :=
  [(.string "metrics", .bytes [117, 112]), (.string "meta", .int64 7)]

/-! ## Shape of the results of `GetRecord` -/

/-- The type switch either carries on with a timestamp or returns `-4` or `-5`
with the zero timestamp and no record. -/
theorem resolveTimestamp_inl (ts : Value) (r : GetRecordResult)
    (h : resolveTimestamp ts = .ok (.inl r)) :
    r = (-4, zeroTs, none) ∨ r = (-5, zeroTs, none) := by
  unfold resolveTimestamp at h
  split at h
  · simp at h
  · simp at h
  · split at h
    · simp at h
    · split at h
      · simp only [Except.ok.injEq, Sum.inl.injEq] at h
        exact Or.inl h.symm
      · split at h <;> simp at h
  · simp only [Except.ok.injEq, Sum.inl.injEq] at h
    exact Or.inr h.symm

/-- On a sequence of at least two elements the type switch resolves the
timestamp to the first element. -/
theorem resolveTimestamp_slice_cons (a b : Value) (rest : List Value) :
    resolveTimestamp (.slice (a :: b :: rest)) = .ok (.inr a) := by
  have h : ¬ (rest.length + 1 + 1 < 2) := by omega
  simp [resolveTimestamp, reflectLen, reflectKind, reflectIndex, h]

/-- Every normal return of `GetRecord` is either a success `(0, t, m)` with a
record, or a negative code among `-1 .. -5` with the zero timestamp and the nil
record. -/
theorem GetRecord_shape (d : Except String Value) (r : GetRecordResult)
    (h : GetRecord d = .ok r) :
    (∃ t m, r = (0, t, some m)) ∨
      (∃ c : Int, c ∈ [(-1 : Int), -2, -3, -4, -5] ∧ r = (c, zeroTs, none)) := by
  unfold GetRecord at h
  split at h
  · simp only [Except.ok.injEq] at h
    exact Or.inr ⟨-1, by simp, h.symm⟩
  · split at h
    · simp at h
    · split at h
      · simp only [Except.ok.injEq] at h
        exact Or.inr ⟨-2, by simp, h.symm⟩
      · split at h
        · split at h
          · simp only [Except.ok.injEq] at h
            exact Or.inl ⟨_, _, h.symm⟩
          · simp at h
        · split at h
          · simp at h
          · split at h
            · simp at h
            · rename_i r0 hr
              simp only [Except.ok.injEq] at h
              subst h
              rcases resolveTimestamp_inl _ _ hr with h4 | h5
              · exact Or.inr ⟨-4, by simp, h4⟩
              · exact Or.inr ⟨-5, by simp, h5⟩
            · split at h
              · simp at h
              · split at h
                · simp only [Except.ok.injEq] at h
                  exact Or.inl ⟨_, _, h.symm⟩
                · simp only [Except.ok.injEq] at h
                  exact Or.inr ⟨-3, by simp, h.symm⟩
        · simp only [Except.ok.injEq] at h
          exact Or.inr ⟨-2, by simp, h.symm⟩

/-! ## Top-level mappings -/

/-- C1 (as the code has it): for every top-level mapping `m`, `GetRecord`
returns `(0, 0, m)` when `m` has exactly two entries and `(-2, 0, nil)` for
every other number of entries. -/
theorem GetRecord_map (m : Record) :
    GetRecord (.ok (.map m)) =
      if m.length = 2 then .ok (0, zeroTs, some m) else .ok (-2, zeroTs, none) := by
  by_cases h : m.length = 2 <;> simp [GetRecord, reflectLen, reflectKind, h]

/-- C1 fails as stated: on the one-entry mapping `{"a": 1}` the result of
`GetRecord` is `(-2, 0, nil)`, not `(0, 0, {"a": 1})`. -/
theorem GetRecord_map_one_entry :
    GetRecord (.ok (.map recA)) = .ok (-2, zeroTs, none) ∧
      GetRecord (.ok (.map recA)) ≠ .ok (0, zeroTs, some recA) := by
  have h : GetRecord (.ok (.map recA)) = .ok (-2, zeroTs, none) := rfl
  refine ⟨h, ?_⟩
  rw [h]
  intro hc
  simp only [Except.ok.injEq, Prod.mk.injEq] at hc
  exact absurd hc.1 (by decide)

/-! ## Log records `[timestamp, payload]` -/

/-- C2: for every `t` that is an `FLBTime` or a `uint64` and every mapping `m`,
`GetRecord` on the top-level sequence `[t, m]` returns status `0`, the
timestamp `t` itself and the record `m`. -/
theorem GetRecord_direct_timestamp (t : Value) (m : Record)
    (ht : (∃ ft, t = .flbTime ft) ∨ (∃ n, t = .uint64 n)) :
    GetRecord (.ok (.slice [t, .map m])) = .ok (0, t, some m) := by
  rcases ht with ⟨ft, rfl⟩ | ⟨n, rfl⟩ <;> rfl

/-- C2 at `[ext-time(1700000000, 500000), {"a": 1}]`: the extension payload
decodes to `extTime`, and `GetRecord` returns `(0, extTime, {"a": 1})`. -/
theorem GetRecord_direct_timestamp_witness :
    FLBTime.ReadExt zeroFLBTime (.flbTimePtr (some zeroFLBTime)) extPayload = .ok extTime ∧
      GetRecord (.ok (.slice [.flbTime extTime, .map recA])) =
        .ok (0, .flbTime extTime, some recA) :=
  ⟨rfl, GetRecord_direct_timestamp (.flbTime extTime) recA (Or.inl ⟨extTime, rfl⟩)⟩

/-- C3 fails on the code: on a top-level value that has no length (nil, a
boolean, a signed or unsigned integer, a float, a bare `FLBTime`) `GetRecord`
panics inside `reflect.Value.Len` instead of returning a status. -/
theorem GetRecord_scalar_panics :
    (∃ msg, GetRecord (.ok .nil) = .error msg) ∧
      (∀ b, ∃ msg, GetRecord (.ok (.bool b)) = .error msg) ∧
      (∀ i, ∃ msg, GetRecord (.ok (.int64 i)) = .error msg) ∧
      (∀ n, ∃ msg, GetRecord (.ok (.uint64 n)) = .error msg) ∧
      (∀ f, ∃ msg, GetRecord (.ok (.float64 f)) = .error msg) ∧
      (∀ ft, ∃ msg, GetRecord (.ok (.flbTime ft)) = .error msg) :=
  ⟨⟨_, rfl⟩, fun _ => ⟨_, rfl⟩, fun _ => ⟨_, rfl⟩, fun _ => ⟨_, rfl⟩,
    fun _ => ⟨_, rfl⟩, fun _ => ⟨_, rfl⟩⟩

/-- C4: a failed decode gives `(-1, 0, nil)`, and whenever `GetRecord` returns
a status other than `0` that status is negative, the timestamp is the zero
sentinel and the record is nil. -/
theorem GetRecord_failure_result :
    (∀ e, GetRecord (.error e) = .ok (-1, zeroTs, none)) ∧
      ∀ (d : Except String Value) (st : Int) (ts : Value) (rec : Option Record),
        GetRecord d = .ok (st, ts, rec) → st ≠ 0 → st < 0 ∧ ts = zeroTs ∧ rec = none := by
  refine ⟨fun _ => rfl, ?_⟩
  intro d st ts rec h hne
  rcases GetRecord_shape d _ h with ⟨t, m, hr⟩ | ⟨c, hc, hr⟩
  · simp only [Prod.mk.injEq] at hr
    exact absurd hr.1 hne
  · simp only [Prod.mk.injEq] at hr
    obtain ⟨rfl, rfl, rfl⟩ := hr
    refine ⟨?_, rfl, rfl⟩
    simp only [List.mem_cons, List.mem_singleton, List.not_mem_nil, or_false] at hc
    omega

/-- C4 at the three-element sequence `[1, 2, 3]`: the status is `-2`, so it is
negative, with the zero timestamp and no record. -/
theorem GetRecord_failure_result_witness :
    GetRecord (.ok (.slice [.uint64 1, .uint64 2, .uint64 3])) = .ok (-2, zeroTs, none) ∧
      ((-2 : Int) < 0 ∧ zeroTs = zeroTs ∧ (none : Option Record) = none) :=
  ⟨rfl, GetRecord_failure_result.2 (.ok (.slice [.uint64 1, .uint64 2, .uint64 3]))
    (-2) zeroTs none rfl (by decide)⟩

/-- C5: for every top-level sequence `[w, m]` where `w` is a sequence of length
at least 2 with first element `x` and `m` is a mapping, `GetRecord` returns
`(0, x, m)`; the other elements of `w` do not appear in the result. -/
theorem GetRecord_wrapped_timestamp (w : List Value) (x : Value) (m : Record)
    (hlen : 2 ≤ w.length) (hx : w.head? = some x) :
    GetRecord (.ok (.slice [.slice w, .map m])) = .ok (0, x, some m) := by
  match w, hlen, hx with
  | a :: b :: rest, _, hx =>
    simp only [List.head?_cons, Option.some.injEq] at hx
    subst hx
    simp [GetRecord, resolveTimestamp_slice_cons, reflectLen, reflectKind, reflectIndex]

/-- C5 at `[[1700000000, "meta"], {"a": 1}]`: the resolved timestamp is
`1700000000`. -/
theorem GetRecord_wrapped_timestamp_witness :
    2 ≤ [Value.uint64 1700000000, Value.string "meta"].length ∧
      [Value.uint64 1700000000, Value.string "meta"].head? = some (Value.uint64 1700000000) ∧
      GetRecord (.ok (.slice [.slice [.uint64 1700000000, .string "meta"], .map recA])) =
        .ok (0, .uint64 1700000000, some recA) :=
  ⟨by decide, rfl,
    GetRecord_wrapped_timestamp [.uint64 1700000000, .string "meta"] (.uint64 1700000000) recA
      (by decide) rfl⟩

/-- C6: for every top-level sequence `[t, p]` whose first element is neither an
`FLBTime`, nor a `uint64`, nor a sequence, `GetRecord` returns status `-5` with
the zero timestamp and no record, whatever the payload `p` is. -/
theorem GetRecord_unrecognized_timestamp (t p : Value)
    (h1 : ∀ ft, t ≠ .flbTime ft) (h2 : ∀ n, t ≠ .uint64 n) (h3 : ∀ xs, t ≠ .slice xs) :
    GetRecord (.ok (.slice [t, p])) = .ok (-5, zeroTs, none) := by
  cases t with
  | flbTime ft => exact absurd rfl (h1 ft)
  | uint64 n => exact absurd rfl (h2 n)
  | slice xs => exact absurd rfl (h3 xs)
  | _ => rfl

/-- C6 at `["not-a-time", {"a": 1}]`: status `-5` and no record. -/
theorem GetRecord_unrecognized_timestamp_witness :
    GetRecord (.ok (.slice [.string "not-a-time", .map recA])) = .ok (-5, zeroTs, none) :=
  GetRecord_unrecognized_timestamp (.string "not-a-time") (.map recA)
    (fun _ h => Value.noConfusion h) (fun _ h => Value.noConfusion h)
    (fun _ h => Value.noConfusion h)

/-- C7: for every top-level sequence `[t, p]` whose timestamp resolves (an
`FLBTime`, a `uint64`, or a sequence of length at least 2) and whose payload
`p` is not a mapping, `GetRecord` returns status `-3` with the zero timestamp
and no record. -/
theorem GetRecord_payload_not_mapping (t p : Value)
    (ht : (∃ ft, t = .flbTime ft) ∨ (∃ n, t = .uint64 n) ∨
      (∃ xs, t = .slice xs ∧ 2 ≤ xs.length))
    (hp : ∀ m, p ≠ .map m) :
    GetRecord (.ok (.slice [t, p])) = .ok (-3, zeroTs, none) := by
  have hdata : ∀ t0 : Value,
      (match p with
        | .map map_data => (Except.ok (0, t0, some map_data) : Except String GetRecordResult)
        | _ => .ok (-3, zeroTs, none)) = .ok (-3, zeroTs, none) := by
    intro t0
    cases p with
    | map m => exact absurd rfl (hp m)
    | _ => rfl
  rcases ht with ⟨ft, rfl⟩ | ⟨n, rfl⟩ | ⟨xs, rfl, hxs⟩
  · exact hdata _
  · exact hdata _
  · match xs, hxs with
    | a :: b :: rest, _ =>
      have h := hdata a
      simp only [GetRecord, resolveTimestamp_slice_cons, reflectLen, reflectKind, reflectIndex,
        List.length_cons, List.length_nil, List.get?_cons_zero, List.get?_cons_succ]
      simp [h]

/-- C7 at `[1700000000, "text"]`: the timestamp is a `uint64`, the payload a
string, the status `-3`. -/
theorem GetRecord_payload_not_mapping_witness :
    GetRecord (.ok (.slice [.uint64 1700000000, .string "text"])) = .ok (-3, zeroTs, none) :=
  GetRecord_payload_not_mapping (.uint64 1700000000) (.string "text")
    (Or.inr (Or.inl ⟨1700000000, rfl⟩)) (fun _ h => Value.noConfusion h)

/-- C8: for every top-level sequence `[w, p]` whose first element `w` is a
sequence of length 0 or 1, `GetRecord` returns status `-4` with the zero
timestamp and no record, whatever the payload `p` is. -/
theorem GetRecord_short_timestamp_sequence (w : List Value) (p : Value)
    (hlen : w.length < 2) :
    GetRecord (.ok (.slice [.slice w, p])) = .ok (-4, zeroTs, none) := by
  simp [GetRecord, resolveTimestamp, reflectLen, reflectKind, reflectIndex, hlen]

/-- C8 at `[[1700000000], {"a": 1}]`: a one-element timestamp wrapper gives
status `-4`. -/
theorem GetRecord_short_timestamp_sequence_witness :
    [Value.uint64 1700000000].length < 2 ∧
      GetRecord (.ok (.slice [.slice [.uint64 1700000000], .map recA])) =
        .ok (-4, zeroTs, none) :=
  ⟨by decide, GetRecord_short_timestamp_sequence [.uint64 1700000000] (.map recA) (by decide)⟩

/-- C9: for every top-level sequence whose length is not 2, `GetRecord`
returns status `-2` with the zero timestamp and no record, whatever its
elements are. -/
theorem GetRecord_wrong_arity (xs : List Value) (hlen : xs.length ≠ 2) :
    GetRecord (.ok (.slice xs)) = .ok (-2, zeroTs, none) := by
  simp [GetRecord, reflectLen, hlen]

/-- C9 at the three-element sequence `[ext-time, {"a": 1}, "extra"]`: status
`-2`. -/
theorem GetRecord_wrong_arity_witness :
    [Value.flbTime extTime, Value.map recA, Value.string "extra"].length ≠ 2 ∧
      GetRecord (.ok (.slice [.flbTime extTime, .map recA, .string "extra"])) =
        .ok (-2, zeroTs, none) :=
  ⟨by decide, GetRecord_wrong_arity [.flbTime extTime, .map recA, .string "extra"] (by decide)⟩

/-- C10: every status `GetRecord` returns is one of `0, -1, -2, -3, -4, -5`,
and each of these six codes is returned for some input. -/
theorem GetRecord_status_closed :
    (∀ (d : Except String Value) (st : Int) (ts : Value) (rec : Option Record),
        GetRecord d = .ok (st, ts, rec) → st ∈ statusCodes) ∧
      ∀ st ∈ statusCodes, ∃ d ts rec, GetRecord d = .ok (st, ts, rec) := by
  constructor
  · intro d st ts rec h
    rcases GetRecord_shape d _ h with ⟨t, m, hr⟩ | ⟨c, hc, hr⟩
    · simp only [Prod.mk.injEq] at hr
      simp [statusCodes, hr.1]
    · simp only [Prod.mk.injEq] at hr
      obtain ⟨rfl, -, -⟩ := hr
      exact List.mem_cons_of_mem _ hc
  · intro st hst
    simp only [statusCodes, List.mem_cons, List.mem_singleton, List.not_mem_nil,
      or_false] at hst
    rcases hst with rfl | rfl | rfl | rfl | rfl | rfl
    · exact ⟨.ok (.slice [.uint64 1, .map recA]), _, _, rfl⟩
    · exact ⟨.error "EOF", _, _, rfl⟩
    · exact ⟨.ok (.slice []), _, _, rfl⟩
    · exact ⟨.ok (.slice [.uint64 1, .nil]), _, _, rfl⟩
    · exact ⟨.ok (.slice [.slice [], .map recA]), _, _, rfl⟩
    · exact ⟨.ok (.slice [.nil, .map recA]), _, _, rfl⟩

/-- C10 at `[1, nil]`: the status `-3` that `GetRecord` returns there is one
of the six codes. -/
theorem GetRecord_status_closed_witness :
    GetRecord (.ok (.slice [.uint64 1, .nil])) = .ok (-3, zeroTs, none) ∧
      (-3 : Int) ∈ statusCodes :=
  ⟨rfl, GetRecord_status_closed.1 (.ok (.slice [.uint64 1, .nil])) (-3) zeroTs none rfl⟩

/-! ## Enumerations -/

/-- C15: `MetricType.String` maps 0..4 to `counter`, `gauge`, `histogram`,
`summary`, `untyped` and every other code to the empty string;
`AggregationType.String` maps 0..2 to `unspecified`, `delta`, `cumulative` and
every other code to the empty string; so each gives a non-empty name exactly on
the defined codes, and distinct defined codes give distinct names. -/
theorem enum_String_table :
    (MetricType.String 0 = "counter" ∧ MetricType.String 1 = "gauge" ∧
        MetricType.String 2 = "histogram" ∧ MetricType.String 3 = "summary" ∧
        MetricType.String 4 = "untyped") ∧
      (∀ mt : Int, (mt < 0 ∨ 4 < mt) → MetricType.String mt = "") ∧
      (AggregationType.String 0 = "unspecified" ∧ AggregationType.String 1 = "delta" ∧
        AggregationType.String 2 = "cumulative") ∧
      (∀ t : Int, (t < 0 ∨ 2 < t) → AggregationType.String t = "") ∧
      (∀ mt : Int, MetricType.String mt ≠ "" ↔ (0 ≤ mt ∧ mt ≤ 4)) ∧
      (∀ t : Int, AggregationType.String t ≠ "" ↔ (0 ≤ t ∧ t ≤ 2)) ∧
      (∀ a b : Int, 0 ≤ a → a ≤ 4 → 0 ≤ b → b ≤ 4 →
        MetricType.String a = MetricType.String b → a = b) ∧
      (∀ a b : Int, 0 ≤ a → a ≤ 2 → 0 ≤ b → b ≤ 2 →
        AggregationType.String a = AggregationType.String b → a = b) := by
  have hm : ∀ mt : Int, (mt < 0 ∨ 4 < mt) → MetricType.String mt = "" := by
    intro mt h
    have h0 : mt ≠ 0 := by omega
    have h1 : mt ≠ 1 := by omega
    have h2 : mt ≠ 2 := by omega
    have h3 : mt ≠ 3 := by omega
    have h4 : mt ≠ 4 := by omega
    simp [MetricType.String, COUNTER, GAUGE, HISTOGRAM, SUMMARY, UNTYPED, h0, h1, h2, h3, h4]
  have ha : ∀ t : Int, (t < 0 ∨ 2 < t) → AggregationType.String t = "" := by
    intro t h
    have h0 : t ≠ 0 := by omega
    have h1 : t ≠ 1 := by omega
    have h2 : t ≠ 2 := by omega
    simp [AggregationType.String, UNSPECIFIED, DELTA, CUMMULATIVE, h0, h1, h2]
  have cm : ∀ mt : Int, 0 ≤ mt → mt ≤ 4 → mt = 0 ∨ mt = 1 ∨ mt = 2 ∨ mt = 3 ∨ mt = 4 := by
    intro mt h0 h4
    omega
  have ca : ∀ t : Int, 0 ≤ t → t ≤ 2 → t = 0 ∨ t = 1 ∨ t = 2 := by
    intro t h0 h2
    omega
  refine ⟨⟨rfl, rfl, rfl, rfl, rfl⟩, hm, ⟨rfl, rfl, rfl⟩, ha, ?_, ?_, ?_, ?_⟩
  · intro mt
    constructor
    · intro hne
      by_contra hc
      exact hne (hm mt (by omega))
    · rintro ⟨h0, h4⟩
      rcases cm mt h0 h4 with rfl | rfl | rfl | rfl | rfl <;> decide
  · intro t
    constructor
    · intro hne
      by_contra hc
      exact hne (ha t (by omega))
    · rintro ⟨h0, h2⟩
      rcases ca t h0 h2 with rfl | rfl | rfl <;> decide
  · intro a b a0 a4 b0 b4 h
    rcases cm a a0 a4 with rfl | rfl | rfl | rfl | rfl <;>
      rcases cm b b0 b4 with rfl | rfl | rfl | rfl | rfl <;>
      first
        | rfl
        | exact absurd h (by decide)
  · intro a b a0 a2 b0 b2 h
    rcases ca a a0 a2 with rfl | rfl | rfl <;>
      rcases ca b b0 b2 with rfl | rfl | rfl <;>
      first
        | rfl
        | exact absurd h (by decide)

/-- C15 at the codes 3 and 7: `summary` for the defined code, the empty string
for the undefined one. -/
theorem enum_String_table_witness :
    MetricType.String 3 = "summary" ∧ MetricType.String 7 = "" ∧
      AggregationType.String 7 = "" :=
  ⟨enum_String_table.1.2.2.2.1, enum_String_table.2.1 7 (Or.inr (by decide)),
    enum_String_table.2.2.2.1 7 (Or.inr (by decide))⟩

/-! ## The loops of `CMetrics.String` -/

/-- Joining a non-empty tail: the head, a comma, the joined tail. -/
theorem joinComma_cons (x y : String) (rest : List String) :
    joinComma (x :: y :: rest) = x ++ "," ++ joinComma (y :: rest) := rfl

/-- Concatenation distributes over list append. -/
theorem concatAll_append (a b : List String) :
    concatAll (a ++ b) = concatAll a ++ concatAll b := by
  induction a with
  | nil => simp [concatAll]
  | cons x xs ih => simp [concatAll, ih, String.append_assoc]

/-- The label loop, when the sample has a value for every remaining name:
it appends the pairs `name=value` joined by commas. -/
theorem writeLabels_of_cover (metaLabels valueLabels : List String) :
    ∀ (names : List String) (i : Nat) (ret : String),
      i + names.length = metaLabels.length → metaLabels.length ≤ valueLabels.length →
      writeLabels metaLabels valueLabels i names ret =
        .ok (ret ++ joinComma (specLabelPairs names (valueLabels.drop i))) := by
  intro names
  induction names with
  | nil =>
    intro i ret _ _
    simp [writeLabels, specLabelPairs, joinComma]
  | cons labelName rest ih =>
    intro i ret hi hlen
    simp only [List.length_cons] at hi
    have hlt : i < valueLabels.length := by omega
    have hget : valueLabels.get? i = some (valueLabels.get ⟨i, hlt⟩) := List.get?_eq_get hlt
    have hdrop : valueLabels.drop i = valueLabels.get ⟨i, hlt⟩ :: valueLabels.drop (i + 1) :=
      List.drop_eq_getElem_cons hlt
    rw [writeLabels, hget]
    simp only
    rw [ih (i + 1) _ (by omega) hlen, hdrop]
    cases rest with
    | nil =>
      have hnot : ¬ ((i : Int) < (metaLabels.length : Int) - 1) := by
        simp only [List.length_nil] at hi
        omega
      simp [hnot, specLabelPairs, joinComma]
    | cons r rs =>
      have hyes : (i : Int) < (metaLabels.length : Int) - 1 := by
        simp only [List.length_cons] at hi
        omega
      have hlt2 : i + 1 < valueLabels.length := by
        simp only [List.length_cons] at hi
        omega
      obtain ⟨v2, tl, hdrop2⟩ : ∃ v2 tl, valueLabels.drop (i + 1) = v2 :: tl :=
        ⟨_, _, List.drop_eq_getElem_cons hlt2⟩
      rw [hdrop2]
      simp [hyes, specLabelPairs, joinComma, String.append_assoc]

/-- The label loop, when the sample runs out of values before the names do:
the index expression panics. -/
theorem writeLabels_of_short (metaLabels valueLabels : List String) :
    ∀ (names : List String) (i : Nat) (ret : String),
      i ≤ valueLabels.length → valueLabels.length < i + names.length →
      ∃ e, writeLabels metaLabels valueLabels i names ret = .error e := by
  intro names
  induction names with
  | nil =>
    intro i ret h1 h2
    simp only [List.length_nil] at h2
    omega
  | cons labelName rest ih =>
    intro i ret h1 h2
    simp only [List.length_cons] at h2
    rw [writeLabels]
    cases hget : valueLabels.get? i with
    | none => exact ⟨_, rfl⟩
    | some v =>
      have hlt : i < valueLabels.length := by
        by_contra hc
        rw [List.get?_eq_none.mpr (by omega)] at hget
        cases hget
      exact ih (i + 1) _ (by omega) (by omega)

/-- The sample loop, when every sample has a value for every label name: it
appends one line for each sample. -/
theorem writeValues_of_cover (metric : Metric) :
    ∀ (values : List Sample) (ret : String),
      (∀ value ∈ values, metric.Meta.Labels.length ≤ value.Labels.length) →
      writeValues metric values ret =
        .ok (ret ++ concatAll (values.map (specSampleLine metric))) := by
  intro values
  induction values with
  | nil =>
    intro ret _
    simp [writeValues, concatAll]
  | cons value rest ih =>
    intro ret h
    have hv := h value (List.mem_cons_self _ _)
    rw [writeValues, writeLabels_of_cover _ _ _ 0 _ (by simp) hv]
    simp only
    rw [ih _ (fun v hvm => h v (List.mem_cons_of_mem _ hvm))]
    simp [concatAll, specSampleLine, String.append_assoc]

/-- The sample loop, when some sample has fewer label values than the series
has label names: it panics. -/
theorem writeValues_of_short (metric : Metric) :
    ∀ (values : List Sample) (ret : String),
      (∃ value ∈ values, value.Labels.length < metric.Meta.Labels.length) →
      ∃ e, writeValues metric values ret = .error e := by
  intro values
  induction values with
  | nil =>
    intro ret h
    obtain ⟨v, hv, _⟩ := h
    cases hv
  | cons value rest ih =>
    intro ret h
    rw [writeValues]
    by_cases hv : metric.Meta.Labels.length ≤ value.Labels.length
    · rw [writeLabels_of_cover _ _ _ 0 _ (by simp) hv]
      simp only
      apply ih
      obtain ⟨v, hvm, hsh⟩ := h
      rcases List.mem_cons.mp hvm with rfl | htl
      · omega
      · exact ⟨v, htl, hsh⟩
    · obtain ⟨e, he⟩ := writeLabels_of_short metric.Meta.Labels value.Labels
        metric.Meta.Labels 0 (ret ++ (fullMetricName metric ++ "\x7b")) (Nat.zero_le _) (by omega)
      rw [he]
      exact ⟨e, rfl⟩

/-- The series loop, when every sample of every series has a value for every
label name: it appends the block of each series. -/
theorem writeMetrics_of_cover :
    ∀ (metrics : List Metric) (ret : String), labelsCover metrics →
      writeMetrics metrics ret = .ok (ret ++ specRender metrics) := by
  intro metrics
  induction metrics with
  | nil =>
    intro ret _
    simp [writeMetrics, specRender, concatAll]
  | cons metric rest ih =>
    intro ret h
    rw [writeMetrics]
    rw [writeValues_of_cover metric _ _ (h metric (List.mem_cons_self _ _))]
    simp only
    rw [ih _ (fun m hm => h m (List.mem_cons_of_mem _ hm))]
    simp [specRender, concatAll, specSeriesBlock, String.append_assoc]

/-- The series loop, when some sample of some series has fewer label values
than the series has label names: it panics. -/
theorem writeMetrics_of_short :
    ∀ (metrics : List Metric) (ret : String), ¬ labelsCover metrics →
      ∃ e, writeMetrics metrics ret = .error e := by
  intro metrics
  induction metrics with
  | nil =>
    intro ret h
    exact absurd (fun m hm => by cases hm) h
  | cons metric rest ih =>
    intro ret h
    rw [writeMetrics]
    by_cases hm : ∀ value ∈ metric.Values, metric.Meta.Labels.length ≤ value.Labels.length
    · rw [writeValues_of_cover metric _ _ hm]
      simp only
      apply ih
      intro hrest
      apply h
      intro m hmem
      rcases List.mem_cons.mp hmem with rfl | htl
      · exact hm
      · exact hrest m htl
    · have hex : ∃ value ∈ metric.Values, value.Labels.length < metric.Meta.Labels.length := by
        by_contra hc
        apply hm
        intro v hv
        by_contra hlt
        exact hc ⟨v, hv, by omega⟩
      obtain ⟨e, he⟩ := writeValues_of_short metric metric.Values _ hex
      rw [he]
      exact ⟨e, rfl⟩

/-- The specified rendering of `a ++ b` is that of `a` followed by that of
`b`. -/
theorem specRender_append (a b : List Metric) :
    specRender (a ++ b) = specRender a ++ specRender b := by
  simp [specRender, concatAll_append]

/-- Covering splits over list append. -/
theorem labelsCover_append (a b : List Metric) :
    labelsCover (a ++ b) ↔ labelsCover a ∧ labelsCover b := by
  constructor
  · intro h
    exact ⟨fun m hm => h m (List.mem_append_left _ hm),
      fun m hm => h m (List.mem_append_right _ hm)⟩
  · rintro ⟨ha, hb⟩ m hm
    rcases List.mem_append.mp hm with h | h
    · exact ha m h
    · exact hb m h

/-- Aligned samples cover their label names. -/
theorem labelsCover_of_aligned (metrics : List Metric) (h : labelsAligned metrics) :
    labelsCover metrics :=
  fun m hm v hv => Nat.le_of_eq (h m hm v hv).symm

/-- On a document whose samples cover their label names, `CMetrics.String`
returns the specified rendering. -/
theorem String_of_cover (cm : CMetrics) (h : labelsCover cm.Metrics) :
    CMetrics.String cm = .ok (specRender cm.Metrics) := by
  rw [CMetrics.String, writeMetrics_of_cover _ _ h]
  simp

/-! ## Rendering a metrics document -/

/-- A type code outside 0..4 has the empty name. -/
theorem MetricType_String_undefined (mt : Int) (h : mt < 0 ∨ 4 < mt) :
    MetricType.String mt = "" := by
  have h0 : mt ≠ 0 := by omega
  have h1 : mt ≠ 1 := by omega
  have h2 : mt ≠ 2 := by omega
  have h3 : mt ≠ 3 := by omega
  have h4 : mt ≠ 4 := by omega
  simp [MetricType.String, COUNTER, GAUGE, HISTOGRAM, SUMMARY, UNTYPED, h0, h1, h2, h3, h4]

/-- C12: for every document in which each sample has as many label values as
its series has label names, `CMetrics.String` returns the concatenation, over
the series in order, of the HELP line, the TYPE line and one line
`fullName{name=value,...} value` for each sample, each ended by a newline. -/
theorem CMetrics_String_format (cm : CMetrics) (h : labelsAligned cm.Metrics) :
    CMetrics.String cm = .ok (specRender cm.Metrics) :=
  String_of_cover cm (labelsCover_of_aligned _ h)

/-- C12 at the one-series counter document `ns_ss_myname`, label `region`,
description `d`, sample `us` of value 42.4: the three lines of the example. -/
theorem CMetrics_String_format_witness :
    labelsAligned [seriesMyname] ∧
      CMetrics.String { Meta := emptyMeta, Metrics := [seriesMyname] } =
        .ok "# HELP ns_ss_myname d\n# TYPE ns_ss_myname counter\nns_ss_myname\x7bregion=us\x7d 42\n" :=
  have h : labelsAligned [seriesMyname] := by
    intro m hm v hv
    simp only [List.mem_singleton] at hm
    subst hm
    simp only [seriesMyname, List.mem_singleton] at hv
    subst hv
    rfl
  ⟨h, (CMetrics_String_format { Meta := emptyMeta, Metrics := [seriesMyname] } h).trans rfl⟩

/-- C13 (as the code has it): `CMetrics.String` returns a string exactly on
the documents in which every sample has at least as many label values as its
series has label names. -/
theorem CMetrics_String_returns_iff (cm : CMetrics) :
    (∃ s, CMetrics.String cm = .ok s) ↔ labelsCover cm.Metrics := by
  constructor
  · rintro ⟨s, hs⟩
    by_contra hc
    obtain ⟨e, he⟩ := writeMetrics_of_short cm.Metrics "" hc
    rw [CMetrics.String, he] at hs
    cases hs
  · intro h
    exact ⟨_, String_of_cover cm h⟩

/-- C13 fails as stated: on a series with the label name `region` and a sample
without label values `CMetrics.String` panics on the index expression
`value.Labels[i]` and returns no string. -/
theorem CMetrics_String_short_labels_panics :
    CMetrics.String { Meta := emptyMeta, Metrics := [seriesShort] } =
        .error "runtime error: index out of range" ∧
      ¬ ∃ s, CMetrics.String { Meta := emptyMeta, Metrics := [seriesShort] } = .ok s := by
  have h : CMetrics.String { Meta := emptyMeta, Metrics := [seriesShort] } =
      .error "runtime error: index out of range" := rfl
  refine ⟨h, ?_⟩
  rintro ⟨s, hs⟩
  rw [h] at hs
  cases hs

/-- C16: for every series whose type code is outside 0..4, the step of
`CMetrics.String` for that series does not fail on the type: it writes the
HELP line and then the TYPE line `# TYPE fullName ` with an empty type name
and a newline, and goes on to the samples; in a document whose samples cover
their label names the whole call returns, with that TYPE line in the block of
the series. -/
theorem CMetrics_String_unknown_type (metric : Metric)
    (hcode : metric.Meta.Type_ < (0 : Int) ∨ (4 : Int) < metric.Meta.Type_) :
    (∀ (rest : List Metric) (ret : String),
        writeMetrics (metric :: rest) ret =
          match writeValues metric metric.Values
              (ret ++ ("# HELP " ++ fullMetricName metric ++ " " ++ metric.Meta.Opts.Desc ++ "\n")
                ++ ("# TYPE " ++ fullMetricName metric ++ " " ++ "\n")) with
          | .error e => .error e
          | .ok ret3 => writeMetrics rest ret3) ∧
      ∀ (docMeta : CMetricsMeta) (before after : List Metric),
        labelsCover (before ++ metric :: after) →
        CMetrics.String { Meta := docMeta, Metrics := before ++ metric :: after } =
          .ok (specRender before ++
            ("# HELP " ++ fullMetricName metric ++ " " ++ metric.Meta.Opts.Desc ++ "\n"
              ++ ("# TYPE " ++ fullMetricName metric ++ " " ++ "\n")
              ++ concatAll (metric.Values.map (specSampleLine metric)))
            ++ specRender after) := by
  have hty : MetricType.String metric.Meta.Type_ = "" :=
    MetricType_String_undefined metric.Meta.Type_ hcode
  constructor
  · intro rest ret
    rw [writeMetrics, hty]
    simp
  · intro docMeta before after hcover
    rw [String_of_cover _ hcover]
    show Except.ok (specRender (before ++ ([metric] ++ after))) = _
    rw [specRender_append, specRender_append]
    simp [specRender, concatAll, specSeriesBlock, hty, String.append_assoc]

/-- C16 at the series `ns_ss_myname` with type code 9: the TYPE line is
`# TYPE ns_ss_myname ` and a newline. -/
theorem CMetrics_String_unknown_type_witness :
    (seriesUnknownType.Meta.Type_ < (0 : Int) ∨ (4 : Int) < seriesUnknownType.Meta.Type_) ∧
      CMetrics.String { Meta := emptyMeta, Metrics := [] ++ seriesUnknownType :: [] } =
        .ok "# HELP ns_ss_myname d\n# TYPE ns_ss_myname \nns_ss_myname\x7bregion=us\x7d 42\n" :=
  have hcode : seriesUnknownType.Meta.Type_ < (0 : Int) ∨
      (4 : Int) < seriesUnknownType.Meta.Type_ := Or.inr (by decide)
  have h : labelsCover ([] ++ seriesUnknownType :: []) := by
    intro m hm v hv
    simp only [List.nil_append, List.mem_singleton] at hm
    subst hm
    simp only [seriesUnknownType, seriesMyname, List.mem_singleton] at hv
    subst hv
    exact Nat.le_refl _
  ⟨hcode, ((CMetrics_String_unknown_type seriesUnknownType hcode).2 emptyMeta [] [] h).trans rfl⟩

/-- C20: the empty document renders as the empty string; the document-level
`Meta` never changes the output; and for series lists `a` and `b` whose
samples cover their label names, the rendering of `a ++ b` is the rendering
of `a` followed by the rendering of `b`. -/
theorem CMetrics_String_append :
    (∀ docMeta, CMetrics.String { Meta := docMeta, Metrics := [] } = .ok "") ∧
      (∀ (m1 m2 : CMetricsMeta) (metrics : List Metric),
        CMetrics.String { Meta := m1, Metrics := metrics } =
          CMetrics.String { Meta := m2, Metrics := metrics }) ∧
      ∀ (docMeta : CMetricsMeta) (a b : List Metric), labelsCover a → labelsCover b →
        ∃ sa sb, CMetrics.String { Meta := docMeta, Metrics := a } = .ok sa ∧
          CMetrics.String { Meta := docMeta, Metrics := b } = .ok sb ∧
          CMetrics.String { Meta := docMeta, Metrics := a ++ b } = .ok (sa ++ sb) := by
  refine ⟨fun _ => rfl, fun _ _ _ => rfl, ?_⟩
  intro docMeta a b ha hb
  refine ⟨specRender a, specRender b, String_of_cover _ ha, String_of_cover _ hb, ?_⟩
  rw [String_of_cover _ ((labelsCover_append a b).mpr ⟨ha, hb⟩)]
  exact congrArg Except.ok (specRender_append a b)

/-- C20 at `a = [ns_ss_myname]`, `b = [the same series with type code 9]`:
the rendering of the two-series document is the two renderings in a row. -/
theorem CMetrics_String_append_witness :
    ∃ sa sb, CMetrics.String { Meta := emptyMeta, Metrics := [seriesMyname] } = .ok sa ∧
      CMetrics.String { Meta := emptyMeta, Metrics := [seriesUnknownType] } = .ok sb ∧
      CMetrics.String { Meta := emptyMeta, Metrics := [seriesMyname] ++ [seriesUnknownType] } =
        .ok (sa ++ sb) :=
  CMetrics_String_append.2.2 emptyMeta [seriesMyname] [seriesUnknownType]
    (by
      intro m hm v hv
      simp only [List.mem_singleton] at hm
      subst hm
      simp only [seriesMyname, List.mem_singleton] at hv
      subst hv
      exact Nat.le_refl _)
    (by
      intro m hm v hv
      simp only [List.mem_singleton] at hm
      subst hm
      simp only [seriesUnknownType, seriesMyname, List.mem_singleton] at hv
      subst hv
      exact Nat.le_refl _)

/-! ## The sample value -/

/-- Rounding `m / 2 ^ k` to the nearest integer, ties to even, moves it by at
most one half. -/
theorem roundHalfEven_nearest (m k : Nat) :
    |((roundHalfEven m k : Nat) : ℚ) - (m : ℚ) / 2 ^ k| ≤ 1 / 2 := by
  have hP : 0 < 2 ^ k := Nat.two_pow_pos k
  have hcast : ((2 : ℚ) ^ k) = ((2 ^ k : Nat) : ℚ) := by push_cast; rfl
  rw [hcast]
  unfold roundHalfEven
  generalize 2 ^ k = P at hP
  have hPq : (0 : ℚ) < (P : ℚ) := by exact_mod_cast hP
  have hm : (m : ℚ) = (P : ℚ) * ((m / P : Nat) : ℚ) + ((m % P : Nat) : ℚ) := by
    exact_mod_cast (Nat.div_add_mod m P).symm
  have hr : m % P < P := Nat.mod_lt _ hP
  have hrq : ((m % P : Nat) : ℚ) < (P : ℚ) := by exact_mod_cast hr
  have hr0 : (0 : ℚ) ≤ ((m % P : Nat) : ℚ) := by positivity
  have hdiv : (m : ℚ) / (P : ℚ) = ((m / P : Nat) : ℚ) + ((m % P : Nat) : ℚ) / (P : ℚ) := by
    rw [hm]
    field_simp
    ring
  rw [hdiv, abs_le]
  simp only
  split
  · rename_i h
    have h2 : P ≤ 2 * (m % P) := by
      rcases h with h | ⟨h, _⟩ <;> omega
    have h2q : (P : ℚ) ≤ 2 * ((m % P : Nat) : ℚ) := by exact_mod_cast h2
    have hx : (1 : ℚ) / 2 ≤ ((m % P : Nat) : ℚ) / (P : ℚ) := by
      rw [div_le_div_iff₀ (by norm_num) hPq]
      linarith
    have hx1 : ((m % P : Nat) : ℚ) / (P : ℚ) < 1 := by
      rw [div_lt_one hPq]
      exact hrq
    push_cast
    constructor <;> linarith
  · rename_i h
    have h2 : 2 * (m % P) ≤ P := by
      by_contra hc
      exact h (Or.inl (by omega))
    have h2q : 2 * ((m % P : Nat) : ℚ) ≤ (P : ℚ) := by exact_mod_cast h2
    have hx : ((m % P : Nat) : ℚ) / (P : ℚ) ≤ 1 / 2 := by
      rw [div_le_div_iff₀ hPq (by norm_num)]
      linarith
    have hx0 : (0 : ℚ) ≤ ((m % P : Nat) : ℚ) / (P : ℚ) := div_nonneg hr0 hPq.le
    constructor <;> linarith

/-- The integer `%.0f` prints for a finite double is within one half of the
double's absolute value. -/
theorem float64RoundAbs_nearest (bits : Nat) :
    |((float64RoundAbs bits : Nat) : ℚ) - float64Abs bits| ≤ 1 / 2 := by
  unfold float64RoundAbs float64Abs
  generalize float64Parts bits = p
  obtain ⟨m, e⟩ := p
  simp only
  split
  · rename_i h
    have he : e = (e - 1075) + 1075 := by omega
    have hval : (m : ℚ) * 2 ^ e / 2 ^ 1075 = (m : ℚ) * 2 ^ (e - 1075) := by
      rw [div_eq_iff (by positivity)]
      conv_lhs => rw [he]
      rw [pow_add]
      ring
    rw [hval]
    push_cast
    simp
  · rename_i h
    have hk : 1075 = e + (1075 - e) := by omega
    have hval : (m : ℚ) * 2 ^ e / 2 ^ 1075 = (m : ℚ) / 2 ^ (1075 - e) := by
      rw [div_eq_div_iff (by positivity) (by positivity)]
      conv_rhs => rw [hk]
      rw [pow_add]
      ring
    rw [hval]
    exact roundHalfEven_nearest m (1075 - e)

/-- In an exact tie the integer `%.0f` prints is the even neighbour. -/
theorem roundHalfEven_tie_even (m k : Nat)
    (h : |((roundHalfEven m k : Nat) : ℚ) - (m : ℚ) / 2 ^ k| = 1 / 2) :
    roundHalfEven m k % 2 = 0 := by
  have hP : 0 < 2 ^ k := Nat.two_pow_pos k
  have hcast : ((2 : ℚ) ^ k) = ((2 ^ k : Nat) : ℚ) := by push_cast; rfl
  rw [hcast] at h
  unfold roundHalfEven at h ⊢
  generalize 2 ^ k = P at hP h
  have hPq : (0 : ℚ) < (P : ℚ) := by exact_mod_cast hP
  have hm : (m : ℚ) = (P : ℚ) * ((m / P : Nat) : ℚ) + ((m % P : Nat) : ℚ) := by
    exact_mod_cast (Nat.div_add_mod m P).symm
  have hr : m % P < P := Nat.mod_lt _ hP
  have hdiv : (m : ℚ) / (P : ℚ) = ((m / P : Nat) : ℚ) + ((m % P : Nat) : ℚ) / (P : ℚ) := by
    rw [hm]
    field_simp
    ring
  rw [hdiv] at h
  simp only at h ⊢
  have hx1 : ((m % P : Nat) : ℚ) / (P : ℚ) < 1 := by
    rw [div_lt_one hPq]
    exact_mod_cast hr
  have hx0 : (0 : ℚ) ≤ ((m % P : Nat) : ℚ) / (P : ℚ) := div_nonneg (by positivity) hPq.le
  have htie : ((m % P : Nat) : ℚ) / (P : ℚ) = 1 / 2 → 2 * (m % P) = P := by
    intro hx
    rw [div_eq_iff hPq.ne.symm] at hx
    have : (2 : ℚ) * ((m % P : Nat) : ℚ) = (P : ℚ) := by linarith
    exact_mod_cast this
  split at h
  · rename_i hup
    have hx : ((m % P : Nat) : ℚ) / (P : ℚ) = 1 / 2 := by
      push_cast at h
      rcases abs_eq (by norm_num : (0 : ℚ) ≤ 1 / 2) |>.mp h with h1 | h1 <;> linarith
    have h2 := htie hx
    rw [if_pos hup]
    rcases hup with hgt | ⟨_, hodd⟩
    · omega
    · omega
  · rename_i hdown
    have hx : ((m % P : Nat) : ℚ) / (P : ℚ) = 1 / 2 := by
      rcases abs_eq (by norm_num : (0 : ℚ) ≤ 1 / 2) |>.mp h with h1 | h1 <;> linarith
    have h2 := htie hx
    rw [if_neg hdown]
    by_contra hc
    exact hdown (Or.inr ⟨h2, by omega⟩)

/-- In an exact tie the integer printed for a finite double is even. -/
theorem float64RoundAbs_tie_even (bits : Nat)
    (h : |((float64RoundAbs bits : Nat) : ℚ) - float64Abs bits| = 1 / 2) :
    float64RoundAbs bits % 2 = 0 := by
  unfold float64RoundAbs float64Abs at *
  generalize float64Parts bits = p at *
  obtain ⟨m, e⟩ := p
  simp only at h ⊢
  split
  · rename_i hge
    rw [if_pos hge] at h
    have he : e = (e - 1075) + 1075 := by omega
    have hval : (m : ℚ) * 2 ^ e / 2 ^ 1075 = (m : ℚ) * 2 ^ (e - 1075) := by
      rw [div_eq_iff (by positivity)]
      conv_lhs => rw [he]
      rw [pow_add]
      ring
    rw [hval] at h
    push_cast at h
    norm_num at h
  · rename_i hlt
    rw [if_neg hlt] at h
    have hk : 1075 = e + (1075 - e) := by omega
    have hval : (m : ℚ) * 2 ^ e / 2 ^ 1075 = (m : ℚ) / 2 ^ (1075 - e) := by
      rw [div_eq_div_iff (by positivity) (by positivity)]
      conv_rhs => rw [hk]
      rw [pow_add]
      ring
    rw [hval] at h
    exact roundHalfEven_tie_even m (1075 - e) h

/-- The absolute value of a finite double is not negative. -/
theorem float64Abs_nonneg (bits : Nat) : 0 ≤ float64Abs bits := by
  unfold float64Abs
  positivity

/-- The absolute value of the signed value. -/
theorem abs_float64Value (bits : Nat) : |float64Value bits| = float64Abs bits := by
  unfold float64Value
  split
  · rw [abs_neg, abs_of_nonneg (float64Abs_nonneg bits)]
  · exact abs_of_nonneg (float64Abs_nonneg bits)

/-- A digit value below ten prints as a decimal digit. -/
theorem digitChar_isDigit (k : Nat) (hk : k < 10) : (Nat.digitChar k).isDigit = true := by
  interval_cases k <;> rfl

/-- The decimal digits that `Nat.repr` builds are decimal digit characters. -/
theorem toDigitsCore_isDigit (fuel : Nat) :
    ∀ (n : Nat) (ds : List Char), (∀ c ∈ ds, c.isDigit = true) →
      ∀ c ∈ Nat.toDigitsCore 10 fuel n ds, c.isDigit = true := by
  induction fuel with
  | zero =>
    intro n ds hds c hc
    exact hds c (by simpa [Nat.toDigitsCore] using hc)
  | succ f ih =>
    intro n ds hds c hc
    have hcons : ∀ c ∈ Nat.digitChar (n % 10) :: ds, c.isDigit = true := by
      intro c hc
      rcases List.mem_cons.mp hc with rfl | hmem
      · exact digitChar_isDigit _ (Nat.mod_lt _ (by decide))
      · exact hds c hmem
    simp only [Nat.toDigitsCore] at hc
    split at hc
    · exact hcons c hc
    · exact ih _ _ hcons c hc

/-- The decimal numeral of a natural number has decimal digits only. -/
theorem toString_nat_isDigit (n : Nat) : ∀ c ∈ (toString n).data, c.isDigit = true := by
  intro c hc
  have hdata : (toString n).data = Nat.toDigitsCore 10 (n + 1) n [] := rfl
  rw [hdata] at hc
  exact toDigitsCore_isDigit _ _ _ (fun c hc => by cases hc) c hc

/-- C14 (as the code has it): for every finite sample value `v` the text that
`%.0f` prints is the decimal numeral of the integer nearest to `v`: the
numeral of a natural number `n` within one half of the absolute value of `v`
(the even one in an exact tie), with a leading `-` when `v` is negative and
none when `v` is positive, and no other characters than that sign and decimal
digits; not the truncated value. The values that are no numbers print as
`NaN`, `+Inf`, `-Inf`. 42.4 prints as `42`, 42.6 as `43`, -42.6 as `-43`, and
0.5, 1.5, 2.5 as `0`, `2`, `2`. In `CMetrics.String` this text stands between
the closing brace with a blank and the newline of the sample line. -/
theorem formatFloat0_rounds :
    (∀ bits, float64Exp bits ≠ 2047 →
        ∃ n : Nat, |(n : ℚ) - abs (float64Value bits)| ≤ 1 / 2 ∧
          (|(n : ℚ) - abs (float64Value bits)| = 1 / 2 → n % 2 = 0) ∧
          (float64Value bits < 0 → formatFloat0 bits = "-" ++ toString n) ∧
          (0 < float64Value bits → formatFloat0 bits = toString n) ∧
          (float64Value bits = 0 → formatFloat0 bits = "0" ∨ formatFloat0 bits = "-0") ∧
          ∀ c ∈ (formatFloat0 bits).data, c = '-' ∨ c.isDigit = true) ∧
      (∀ bits, float64Exp bits = 2047 →
        (float64Frac bits ≠ 0 → formatFloat0 bits = "NaN") ∧
          (float64Frac bits = 0 → float64Sign bits = false → formatFloat0 bits = "+Inf") ∧
          (float64Frac bits = 0 → float64Sign bits = true → formatFloat0 bits = "-Inf")) ∧
      (|float64Value bits42_4 - 424 / 10| < 1 / 10 ^ 14 ∧ formatFloat0 bits42_4 = "42") ∧
      (|float64Value bits42_6 - 426 / 10| < 1 / 10 ^ 14 ∧ formatFloat0 bits42_6 = "43") ∧
      (|float64Value bitsNeg42_6 + 426 / 10| < 1 / 10 ^ 14 ∧
        formatFloat0 bitsNeg42_6 = "-43") ∧
      (formatFloat0 0x3FE0000000000000 = "0" ∧ formatFloat0 0x3FF8000000000000 = "2" ∧
        formatFloat0 0x4004000000000000 = "2") ∧
      (∀ (docMeta : CMetricsMeta) (metricMeta : MetricMeta) (value : Sample),
        metricMeta.Labels.length ≤ value.Labels.length →
        CMetrics.String
            { Meta := docMeta, Metrics := [{ Meta := metricMeta, Values := [value] }] } =
          .ok ("# HELP " ++ fullMetricName { Meta := metricMeta, Values := [value] } ++ " "
              ++ metricMeta.Opts.Desc ++ "\n"
            ++ ("# TYPE " ++ fullMetricName { Meta := metricMeta, Values := [value] } ++ " "
              ++ MetricType.String metricMeta.Type_ ++ "\n")
            ++ (fullMetricName { Meta := metricMeta, Values := [value] } ++ "\x7b"
              ++ joinComma (specLabelPairs metricMeta.Labels value.Labels)
              ++ "\x7d " ++ formatFloat0 value.Value ++ "\n"))) ∧
      CMetrics.String { Meta := emptyMeta, Metrics := [seriesRoundsUp] } =
        .ok "# HELP ns_ss_myname d\n# TYPE ns_ss_myname counter\nns_ss_myname\x7bregion=us\x7d 43\n" := by
  refine ⟨?_, ?_, ⟨?_, rfl⟩, ⟨?_, rfl⟩, ⟨?_, rfl⟩, ⟨rfl, rfl, rfl⟩, ?_, rfl⟩
  · intro bits hfin
    have htext : formatFloat0 bits = signText bits ++ toString (float64RoundAbs bits) := by
      simp [formatFloat0, hfin]
    have hnear := float64RoundAbs_nearest bits
    refine ⟨float64RoundAbs bits, ?_, ?_, ?_, ?_, ?_, ?_⟩
    · rw [abs_float64Value]
      exact hnear
    · rw [abs_float64Value]
      exact float64RoundAbs_tie_even bits
    · intro hneg
      have hs : float64Sign bits = true := by
        by_contra hc
        have hv : float64Value bits = float64Abs bits := by simp [float64Value, hc]
        have := float64Abs_nonneg bits
        linarith
      rw [htext]
      simp [signText, hs]
    · intro hpos
      have hs : ¬ float64Sign bits = true := by
        intro hc
        have hv : float64Value bits = -float64Abs bits := by simp [float64Value, hc]
        have := float64Abs_nonneg bits
        linarith
      rw [htext]
      simp [signText, hs]
    · intro hzero
      have habs : float64Abs bits = 0 := by
        rw [← abs_float64Value, hzero, abs_zero]
      have hn : float64RoundAbs bits = 0 := by
        rw [habs, sub_zero, abs_le] at hnear
        have h1 : ((float64RoundAbs bits : Nat) : ℚ) < 1 := by linarith [hnear.2]
        exact_mod_cast Nat.lt_one_iff.mp (by exact_mod_cast h1)
      rw [htext, hn]
      by_cases hs : float64Sign bits = true
      · exact Or.inr (by simp [signText, hs]; rfl)
      · exact Or.inl (by simp [signText, hs]; rfl)
    · intro c hc
      rw [htext, String.data_append, List.mem_append] at hc
      rcases hc with hsign | hdig
      · left
        unfold signText at hsign
        split at hsign
        · simpa using hsign
        · simp at hsign
      · exact Or.inr (toString_nat_isDigit _ c hdig)
  · intro bits h
    refine ⟨fun hf => by simp [formatFloat0, h, hf], fun hf hs => by simp [formatFloat0, h, hf, hs],
      fun hf hs => by simp [formatFloat0, h, hf, hs]⟩
  · have hp : float64Parts bits42_4 = (5967269506265907, 1028) := by decide
    have hs : float64Sign bits42_4 = false := by decide
    rw [float64Value, float64Abs, hp, hs, abs_lt]
    norm_num
  · have hp : float64Parts bits42_6 = (5995417003936973, 1028) := by decide
    have hs : float64Sign bits42_6 = false := by decide
    rw [float64Value, float64Abs, hp, hs, abs_lt]
    norm_num
  · have hp : float64Parts bitsNeg42_6 = (5995417003936973, 1028) := by decide
    have hs : float64Sign bitsNeg42_6 = true := by decide
    rw [float64Value, float64Abs, hp, hs, abs_lt]
    norm_num
  · intro docMeta metricMeta value hcover
    have hc : labelsCover [({ Meta := metricMeta, Values := [value] } : Metric)] := by
      intro m hm v hv
      simp only [List.mem_singleton] at hm
      subst hm
      simp only [List.mem_singleton] at hv
      subst hv
      exact hcover
    rw [String_of_cover _ hc]
    simp [specRender, concatAll, specSeriesBlock, specSampleLine, String.append_assoc]

/-- C14 at the finite value -42.6: its exponent field is not 2047 and it
prints as `-43`. -/
theorem formatFloat0_rounds_witness :
    float64Exp bitsNeg42_6 ≠ 2047 ∧ formatFloat0 bitsNeg42_6 = "-43" ∧
      ∃ n : Nat, |(n : ℚ) - abs (float64Value bitsNeg42_6)| ≤ 1 / 2 ∧
        (|(n : ℚ) - abs (float64Value bitsNeg42_6)| = 1 / 2 → n % 2 = 0) ∧
        (float64Value bitsNeg42_6 < 0 → formatFloat0 bitsNeg42_6 = "-" ++ toString n) ∧
        (0 < float64Value bitsNeg42_6 → formatFloat0 bitsNeg42_6 = toString n) ∧
        (float64Value bitsNeg42_6 = 0 →
          formatFloat0 bitsNeg42_6 = "0" ∨ formatFloat0 bitsNeg42_6 = "-0") ∧
        ∀ c ∈ (formatFloat0 bitsNeg42_6).data, c = '-' ∨ c.isDigit = true :=
  ⟨by decide, rfl, formatFloat0_rounds.1 bitsNeg42_6 (by decide)⟩

/-- C14 fails as stated: the sample value NaN prints as `NaN`, which is the
numeral of no integer, with or without a sign; `CMetrics.String` writes it
after the closing brace. -/
theorem formatFloat0_nan_is_no_integer :
    formatFloat0 bitsNaN = "NaN" ∧
      (¬ ∃ n : Nat, formatFloat0 bitsNaN = toString n ∨
        formatFloat0 bitsNaN = "-" ++ toString n) ∧
      CMetrics.String { Meta := emptyMeta, Metrics := [seriesNaN] } =
        .ok "# HELP ns_ss_myname d\n# TYPE ns_ss_myname counter\nns_ss_myname\x7bregion=us\x7d NaN\n" := by
  have hnan : formatFloat0 bitsNaN = "NaN" := rfl
  refine ⟨hnan, ?_, rfl⟩
  rintro ⟨n, h | h⟩
  · rw [hnan] at h
    have hd := toString_nat_isDigit n 'N' (by rw [← h]; decide)
    exact absurd hd (by decide)
  · rw [hnan] at h
    have hdata := congrArg String.data h
    rw [String.data_append] at hdata
    have hhead : 'N' = '-' := by
      have hh := congrArg List.head? hdata
      simp at hh
    exact absurd hhead (by decide)

/-! ## The timestamp extension -/

/-- Reading back the big-endian bytes of an unsigned 32-bit number. -/
theorem bigEndianUint32_bigEndian32 (n : Nat) (hn : n < 2 ^ 32) (rest : List Nat) :
    bigEndianUint32 (bigEndian32 n ++ rest) = some n := by
  simp only [bigEndian32, List.cons_append, List.nil_append, bigEndianUint32, Option.some.injEq]
  norm_num at hn ⊢
  omega

/-- With a nanosecond argument inside the second, `time.Unix` keeps both
arguments. -/
theorem timeUnix_in_range (sec nsec : Int) (h0 : 0 ≤ nsec) (h1 : nsec < 1000000000) :
    timeUnix sec nsec = { sec := sec, nsec := nsec } := by
  have h : ¬ (nsec < 0 ∨ nsec ≥ 1000000000) := by omega
  simp [timeUnix, h]

/-- C11 (as the code has it): for every unsigned 32-bit `s` and `u` with `u`
below 1,000,000,000 (so for every `u` below 1,000,000), `ReadExt` into a
`*FLBTime` on the eight bytes `bigEndian32 s ++ bigEndian32 u` gives a
timestamp whose seconds are exactly `s` and whose nanoseconds are exactly
`u`. -/
theorem ReadExt_round_trip (f cur : FLBTime) (s u : Nat) (hs : s < 2 ^ 32) (hu : u < 2 ^ 32)
    (hn : u < 1000000000) :
    ∃ t, FLBTime.ReadExt f (.flbTimePtr (some cur)) (bigEndian32 s ++ bigEndian32 u) = .ok t ∧
      t.time.Unix = s ∧ t.time.Nanosecond = u := by
  have h1 : bigEndianUint32 (bigEndian32 s ++ bigEndian32 u) = some s :=
    bigEndianUint32_bigEndian32 s hs _
  have h2 : bigEndianUint32 ((bigEndian32 s ++ bigEndian32 u).drop 4) = some u := by
    have hd : (bigEndian32 s ++ bigEndian32 u).drop 4 = bigEndian32 u ++ [] := by
      simp [bigEndian32]
    rw [hd]
    exact bigEndianUint32_bigEndian32 u hu _
  refine ⟨{ time := { sec := s, nsec := u } }, ?_, rfl, rfl⟩
  rw [FLBTime.ReadExt]
  simp only [h1, h2, Int.ofNat_eq_coe]
  rw [timeUnix_in_range _ _ (by omega) (by omega)]

/-- C11 at seconds 1700000000 and second word 500000: the timestamp has
1700000000 seconds and 500000 nanoseconds. -/
theorem ReadExt_round_trip_witness :
    ((1700000000 : Nat) < 2 ^ 32 ∧ (500000 : Nat) < 2 ^ 32 ∧ (500000 : Nat) < 1000000000) ∧
      ∃ t, FLBTime.ReadExt zeroFLBTime (.flbTimePtr (some zeroFLBTime))
          (bigEndian32 1700000000 ++ bigEndian32 500000) = .ok t ∧
        t.time.Unix = (1700000000 : Nat) ∧ t.time.Nanosecond = (500000 : Nat) :=
  ⟨⟨by norm_num, by norm_num, by norm_num⟩,
    ReadExt_round_trip zeroFLBTime zeroFLBTime 1700000000 500000
      (by norm_num) (by norm_num) (by norm_num)⟩

/-- C11 fails as stated: with seconds 1700000000 and microseconds 500000 in
the payload, the timestamp `ReadExt` builds has the microseconds component
500, not 500000. -/
theorem ReadExt_microseconds_differ :
    ∃ t, FLBTime.ReadExt zeroFLBTime (.flbTimePtr (some zeroFLBTime))
        (bigEndian32 1700000000 ++ bigEndian32 500000) = .ok t ∧
      t.time.Unix = 1700000000 ∧ t.time.Microsecond = 500 ∧ t.time.Microsecond ≠ 500000 :=
  ⟨extTime, rfl, by decide, by decide, by decide⟩

/-- On a `*FLBTime` destination and a payload of at least eight bytes
`ReadExt` returns. -/
theorem ReadExt_returns (f cur : FLBTime) (b : List Nat) (hb : 8 ≤ b.length) :
    ∃ t, FLBTime.ReadExt f (.flbTimePtr (some cur)) b = .ok t := by
  match b, hb with
  | _ :: _ :: _ :: _ :: _ :: _ :: _ :: _ :: _, _ => exact ⟨_, rfl⟩

/-- C17 (as the code has it): `WriteExt` and `UpdateExt` panic with
`unsupported` for every argument and never return a value; the operations that
return are `ConvertExt`, which returns `nil` for every argument, and `ReadExt`,
the decode path, which returns a timestamp for every `*FLBTime` destination
and every eight-byte payload. -/
theorem FLBTime_ext_operations :
    (∀ f v, FLBTime.WriteExt f v = .error "unsupported") ∧
      (∀ f dest v, FLBTime.UpdateExt f dest v = .error "unsupported") ∧
      (∀ f v, FLBTime.ConvertExt f v = .ok .nil) ∧
      (∀ (f cur : FLBTime) (b : List Nat), b.length = 8 →
        ∃ t, FLBTime.ReadExt f (.flbTimePtr (some cur)) b = .ok t) :=
  ⟨fun _ _ => rfl, fun _ _ _ => rfl, fun _ _ => rfl,
    fun f cur b hb => ReadExt_returns f cur b (Nat.le_of_eq hb.symm)⟩

/-- C17 at the payload of seconds 1700000000 and second word 500000: the
decode path returns the timestamp. -/
theorem FLBTime_ext_operations_witness :
    extPayload.length = 8 ∧
      ∃ t, FLBTime.ReadExt zeroFLBTime (.flbTimePtr (some zeroFLBTime)) extPayload = .ok t :=
  ⟨rfl, FLBTime_ext_operations.2.2.2 zeroFLBTime zeroFLBTime extPayload rfl⟩

/-- C17 fails as stated: `ConvertExt` returns `nil` normally, so `ReadExt` is
not the only operation of the extension that returns, and not every operation
other than the decoding one aborts with `unsupported`. -/
theorem FLBTime_ConvertExt_returns :
    FLBTime.ConvertExt extTime (.value (.flbTime extTime)) = .ok .nil ∧
      FLBTime.ConvertExt extTime (.value (.flbTime extTime)) ≠ .error "unsupported" :=
  ⟨rfl, fun h => Except.noConfusion h⟩

/-! ## The exact success condition of `GetRecord` -/

/-- On a two-element sequence `GetRecord` returns the status that the order of
checks gives. -/
theorem GetRecord_status_pair (t p : Value) :
    ∃ ts rec, GetRecord (.ok (.slice [t, p])) = .ok (specStatus (.slice [t, p]), ts, rec) := by
  cases t with
  | flbTime ft => cases p <;> exact ⟨_, _, rfl⟩
  | uint64 n => cases p <;> exact ⟨_, _, rfl⟩
  | slice w =>
    match w with
    | [] => exact ⟨_, _, rfl⟩
    | [_] => exact ⟨_, _, rfl⟩
    | a :: b :: rest =>
      have hlen : ¬ (rest.length + 1 + 1 < 2) := by omega
      cases p with
      | map kvs =>
        exact ⟨a, some kvs, by
          simp [GetRecord, resolveTimestamp_slice_cons, reflectLen, reflectKind, reflectIndex,
            specStatus, hlen]⟩
      | _ =>
        exact ⟨zeroTs, none, by
          simp [GetRecord, resolveTimestamp_slice_cons, reflectLen, reflectKind, reflectIndex,
            specStatus, hlen]⟩
  | _ => exact ⟨_, _, rfl⟩

/-- On a mapping, a sequence, a byte string or a string `GetRecord` returns
normally, with the status that the order of checks gives. -/
theorem GetRecord_status (m : Value)
    (hm : (∃ kvs, m = .map kvs) ∨ (∃ xs, m = .slice xs) ∨ (∃ b, m = .bytes b) ∨
      (∃ s, m = .string s)) :
    ∃ ts rec, GetRecord (.ok m) = .ok (specStatus m, ts, rec) := by
  rcases hm with ⟨kvs, rfl⟩ | ⟨xs, rfl⟩ | ⟨b, rfl⟩ | ⟨s, rfl⟩
  · by_cases h : kvs.length = 2
    · exact ⟨zeroTs, some kvs, by simp [GetRecord, reflectLen, reflectKind, specStatus, h]⟩
    · exact ⟨zeroTs, none, by simp [GetRecord, reflectLen, reflectKind, specStatus, h]⟩
  · match xs with
    | [] => exact ⟨_, _, rfl⟩
    | [_] => exact ⟨_, _, rfl⟩
    | [t, p] => exact GetRecord_status_pair t p
    | _ :: _ :: _ :: _ =>
      exact ⟨zeroTs, none, by simp [GetRecord, reflectLen, specStatus]⟩
  · match b with
    | [] => exact ⟨_, _, rfl⟩
    | [_] => exact ⟨_, _, rfl⟩
    | [_, _] => exact ⟨_, _, rfl⟩
    | _ :: _ :: _ :: _ =>
      exact ⟨zeroTs, none, by simp [GetRecord, reflectLen, specStatus]⟩
  · by_cases h : s.utf8ByteSize = 2
    · exact ⟨zeroTs, none, by simp [GetRecord, reflectLen, reflectKind, specStatus, h]⟩
    · exact ⟨zeroTs, none, by simp [GetRecord, reflectLen, reflectKind, specStatus, h]⟩

/-- The status of the order of checks is `0` exactly on the accepted
values. -/
theorem specStatus_eq_zero_iff (m : Value) : specStatus m = 0 ↔ specAccepts m := by
  cases m with
  | map kvs =>
    by_cases h : kvs.length = 2 <;> simp [specStatus, specAccepts, h]
  | slice xs =>
    match xs with
    | [] => simp [specStatus, specAccepts]
    | [_] => simp [specStatus, specAccepts]
    | _ :: _ :: _ :: _ => simp [specStatus, specAccepts]
    | [t, p] =>
      cases t with
      | flbTime ft => cases p <;> simp [specStatus, specAccepts]
      | uint64 n => cases p <;> simp [specStatus, specAccepts]
      | slice w =>
        by_cases hw : w.length < 2
        · have hw2 : ¬ (2 ≤ w.length) := by omega
          cases p <;> simp [specStatus, specAccepts, hw, hw2]
        · have hw2 : 2 ≤ w.length := by omega
          cases p <;> simp [specStatus, specAccepts, hw, hw2]
      | _ => simp [specStatus, specAccepts]
  | bytes b =>
    by_cases h : b.length = 2 <;> simp [specStatus, specAccepts, h]
  | _ => simp [specStatus, specAccepts]

/-- The status of the order of checks is one of `0, -2, -3, -4, -5`. -/
theorem specStatus_range (m : Value) :
    specStatus m = 0 ∨ specStatus m = -2 ∨ specStatus m = -3 ∨ specStatus m = -4 ∨
      specStatus m = -5 := by
  unfold specStatus
  repeat' split
  all_goals simp

/-- C19: for every decoded top-level value that is a mapping, a sequence or a
string (a decoded string being a `[]byte`; a Go `string` is covered too),
`GetRecord` returns a status; the status is `0` exactly when the value is a
mapping with two entries or a two-element sequence of a timestamp (an
`FLBTime`, a `uint64` or a sequence of length at least 2) and a mapping; in
every other case it is one of `-2, -3, -4, -5`, decided in the order length and
shape (`-2`), timestamp kind (`-5` or `-4`), payload (`-3`). -/
theorem GetRecord_exact_success (m : Value)
    (hm : (∃ kvs, m = .map kvs) ∨ (∃ xs, m = .slice xs) ∨ (∃ b, m = .bytes b) ∨
      (∃ s, m = .string s)) :
    ∃ st ts rec, GetRecord (.ok m) = .ok (st, ts, rec) ∧
      (st = 0 ↔ specAccepts m) ∧
      (st ≠ 0 → st = -2 ∨ st = -3 ∨ st = -4 ∨ st = -5) ∧
      st = specStatus m := by
  obtain ⟨ts, rec, h⟩ := GetRecord_status m hm
  refine ⟨specStatus m, ts, rec, h, specStatus_eq_zero_iff m, ?_, rfl⟩
  intro hne
  rcases specStatus_range m with h0 | h'
  · exact absurd h0 hne
  · exact h'

/-- C19 at the decoded two-byte string `ab`: a `[]byte` of length 2, so
`GetRecord` returns; the status is `-5`, its first element being a byte and no
timestamp, and the value is not accepted. -/
theorem GetRecord_exact_success_witness :
    GetRecord (.ok (.bytes [97, 98])) = .ok (-5, zeroTs, none) ∧
      specStatus (.bytes [97, 98]) = -5 ∧
      ∃ st ts rec,
        GetRecord (.ok (.bytes [97, 98])) = .ok (st, ts, rec) ∧
        (st = 0 ↔ specAccepts (.bytes [97, 98])) ∧
        (st ≠ 0 → st = -2 ∨ st = -3 ∨ st = -4 ∨ st = -5) ∧
        st = specStatus (.bytes [97, 98]) :=
  ⟨rfl, rfl, GetRecord_exact_success (.bytes [97, 98]) (Or.inr (Or.inr (Or.inl ⟨_, rfl⟩)))⟩

/-! ## Converting a metrics record -/

/-- A field without an entry in the mapping keeps its prior value. -/
theorem decodeField_absent {α : Type} (name : String) (coerce : Value → Option α) (prior : α)
    (m : Record) (h : lookupField name m = none) : decodeField name coerce prior m = prior := by
  simp [decodeField, h]

/-- A field decoded as a mapping is the decoding of the entries under it, when
the decoding of no entries is the prior value. -/
theorem decodeField_entries {α : Type} (c : Coercion) (name : String) (f : Record → α)
    (prior : α) (hprior : f [] = prior) (m : Record) :
    decodeField name (fun v => (c.toMap v).map f) prior m = f (fieldEntries c name m) := by
  unfold decodeField fieldEntries entriesOf
  cases lookupField name m with
  | none => exact hprior.symm
  | some v =>
    cases h : c.toMap v with
    | none => simp [h, hprior]
    | some kvs => simp [h]

/-- A field decoded as a sequence is the element-wise decoding of the elements
under it. -/
theorem decodeField_elements {α : Type} (c : Coercion) (name : String) (g : Value → α)
    (m : Record) :
    decodeField name (fun v => (c.toList v).map (fun xs => xs.map g)) [] m =
      (fieldElements c name m).map g := by
  unfold decodeField fieldElements
  cases lookupField name m with
  | none => rfl
  | some v =>
    cases h : c.toList v with
    | none => simp [h]
    | some xs => simp [h]

/-- The decoded sample is zero where the input lacks the field. -/
theorem decodeSample_zero (c : Coercion) (input : Record) :
    SampleZeroWhereAbsent input (decodeSample c input) :=
  ⟨fun h => decodeField_absent _ _ _ _ h, fun h => decodeField_absent _ _ _ _ h,
    fun h => decodeField_absent _ _ _ _ h, fun h => decodeField_absent _ _ _ _ h⟩

/-- The decoded `opts` are zero where the input lacks the field. -/
theorem decodeMetricOpts_zero (c : Coercion) (input : Record) :
    OptsZeroWhereAbsent input (decodeMetricOpts c zeroMetricOpts input) :=
  ⟨fun h => decodeField_absent _ _ _ _ h, fun h => decodeField_absent _ _ _ _ h,
    fun h => decodeField_absent _ _ _ _ h, fun h => decodeField_absent _ _ _ _ h⟩

/-- The decoded `meta` of a series is zero where the input lacks the field. -/
theorem decodeMetricMeta_zero (c : Coercion) (input : Record) :
    MetaZeroWhereAbsent c input (decodeMetricMeta c zeroMetricMeta input) := by
  refine ⟨fun h => decodeField_absent _ _ _ _ h, fun h => decodeField_absent _ _ _ _ h,
    fun h => decodeField_absent _ _ _ _ h, fun h => decodeField_absent _ _ _ _ h,
    fun h => decodeField_absent _ _ _ _ h, ?_⟩
  have hopts : (decodeMetricMeta c zeroMetricMeta input).Opts =
      decodeMetricOpts c zeroMetricOpts (fieldEntries c "opts" input) :=
    decodeField_entries c "opts" (decodeMetricOpts c zeroMetricOpts) zeroMetricOpts rfl input
  rw [hopts]
  exact decodeMetricOpts_zero c _

/-- The decoded series is zero where the input lacks the field. -/
theorem decodeMetric_zero (c : Coercion) (input : Record) :
    SeriesZeroWhereAbsent c input (decodeMetric c input) := by
  have hmeta : (decodeMetric c input).Meta =
      decodeMetricMeta c zeroMetricMeta (fieldEntries c "meta" input) :=
    decodeField_entries c "meta" (decodeMetricMeta c zeroMetricMeta) zeroMetricMeta rfl input
  have hvals : (decodeMetric c input).Values =
      (fieldElements c "values" input).map
        (fun x => ((c.toMap x).map (decodeSample c)).getD zeroSample) :=
    decodeField_elements c "values" _ input
  refine ⟨fun h => decodeField_absent _ _ _ _ h, ?_, fun h => decodeField_absent _ _ _ _ h,
    ?_, ?_⟩
  · rw [hmeta]
    exact decodeMetricMeta_zero c _
  · rw [hvals, List.length_map]
  · intro j y s hy hs
    rw [hvals] at hs
    simp only [List.get?_eq_getElem?, List.getElem?_map] at hs hy
    rw [hy] at hs
    simp only [Option.map_some', Option.some.injEq] at hs
    subst hs
    have hs : ((c.toMap y).map (decodeSample c)).getD zeroSample =
        decodeSample c (entriesOf c y) := by
      unfold entriesOf
      cases c.toMap y <;> rfl
    rw [hs]
    exact decodeSample_zero c _

/-- The decoded document-level `meta` is zero where the input lacks the
field. -/
theorem decodeCMetricsMeta_zero (c : Coercion) (input : Record) :
    DocMetaZeroWhereAbsent c input (decodeCMetricsMeta c zeroCMetricsMeta input) := by
  refine ⟨fun h => decodeField_absent _ _ _ _ h, fun h => decodeField_absent _ _ _ _ h,
    fun h => decodeField_absent _ _ _ _ h, ?_⟩
  intro h
  have hsl : (decodeCMetricsMeta c zeroCMetricsMeta input).StaticLabels =
      decodeField "static_labels" c.toList [] (fieldEntries c "processing" input) :=
    decodeField_entries c "processing" (decodeField "static_labels" c.toList []) [] rfl input
  rw [hsl]
  exact decodeField_absent _ _ _ _ h

/-- C18, against the specification's account of the permissive mapping:
for every mapping `ConvertRecordToCMetrics` returns a document (it does not
panic, whatever is missing or of the wrong type), and the returned document has
the zero value in every field the input lacks, at every level: the document
`meta`, each series, its `meta` and `opts`, each sample; it has as many series
and samples as the input has elements. The empty mapping converts to the zero
document, which renders as the empty string. -/
theorem ConvertRecordToCMetrics_zero_values (c : Coercion) :
    (∀ record, ∃ doc, ConvertRecordToCMetrics c record = .ok doc ∧
        DocumentZeroWhereAbsent c record doc) ∧
      ConvertRecordToCMetrics c [] = .ok zeroCMetrics ∧
      CMetrics.String zeroCMetrics = .ok "" := by
  refine ⟨?_, rfl, rfl⟩
  intro record
  refine ⟨_, rfl, ?_⟩
  have hmeta : decodeField "meta"
      (fun v => (c.toMap v).map (decodeCMetricsMeta c zeroCMetrics.Meta)) zeroCMetrics.Meta record =
      decodeCMetricsMeta c zeroCMetricsMeta (fieldEntries c "meta" record) :=
    decodeField_entries c "meta" (decodeCMetricsMeta c zeroCMetricsMeta) zeroCMetricsMeta rfl
      record
  have hms : decodeField "metrics"
      (fun v => (c.toList v).map
        (fun xs => xs.map (fun x => ((c.toMap x).map (decodeMetric c)).getD zeroMetric)))
      zeroCMetrics.Metrics record =
      (fieldElements c "metrics" record).map
        (fun x => ((c.toMap x).map (decodeMetric c)).getD zeroMetric) :=
    decodeField_elements c "metrics" _ record
  refine ⟨fun h => decodeField_absent _ _ _ _ h, ?_, fun h => decodeField_absent _ _ _ _ h,
    ?_, ?_⟩
  · show DocMetaZeroWhereAbsent c _ (decodeField "meta" _ zeroCMetrics.Meta record)
    rw [hmeta]
    exact decodeCMetricsMeta_zero c _
  · show (decodeField "metrics" _ zeroCMetrics.Metrics record).length = _
    rw [hms, List.length_map]
  · intro i x d hx hd
    change (decodeField "metrics" _ zeroCMetrics.Metrics record).get? i = some d at hd
    rw [hms] at hd
    simp only [List.get?_eq_getElem?, List.getElem?_map] at hd hx
    rw [hx] at hd
    simp only [Option.map_some', Option.some.injEq] at hd
    subst hd
    have hd : ((c.toMap x).map (decodeMetric c)).getD zeroMetric =
        decodeMetric c (entriesOf c x) := by
      unfold entriesOf
      cases c.toMap x <;> rfl
    rw [hd]
    exact decodeMetric_zero c _

/-- C18 at a record with one series that has only a name and one sample
value, and at a record whose `metrics` and `meta` have the wrong types: both
convert; the first renders with the empty namespace, subsystem and
description, no labels and the type of code 0, the second is the zero
document. -/
theorem ConvertRecordToCMetrics_zero_values_witness :
    (∃ doc, ConvertRecordToCMetrics plainCoercion recordSparse = .ok doc ∧
        DocumentZeroWhereAbsent plainCoercion recordSparse doc) ∧
      (ConvertRecordToCMetrics plainCoercion recordSparse).bind CMetrics.String =
        .ok "# HELP __up \n# TYPE __up counter\n__up\x7b\x7d 42\n" ∧
      ConvertRecordToCMetrics plainCoercion recordWrongTypes = .ok zeroCMetrics :=
  ⟨(ConvertRecordToCMetrics_zero_values plainCoercion).1 recordSparse, rfl, rfl⟩

end FluentBit
